import Mathlib

/-!
Verification of the Mindo diagram-editing core against its specification.

The data model is translated from `src/types.ts`, the geometry engine from
`src/utils/geometry.ts`, the interaction/history/mutation handlers from
`src/App.tsx`, and the arrow-angle logic from `src/components/EdgeComponent.tsx`.
JS numbers are modelled as rationals (the code performs only field arithmetic
on them), except for the trigonometric arrow-angle code, which is modelled
over the reals.  JS `Set<string>` values are modelled as lists of their
elements, and the random `generateId()` results are passed in as parameters.
-/

namespace Mindo

/-- The `Position` interface of `src/types.ts`: a point `{x, y}`. -/
structure Position where
  x : ℚ
  y : ℚ
deriving DecidableEq

/-- The `HandlePosition` union type of `src/types.ts`. -/
inductive HandlePos where
  | top
  | right
  | bottom
  | left
deriving DecidableEq

/-- The `EdgeType` union type of `src/types.ts`: `bezier | straight | step`. -/
inductive EdgeType where
  | bezier
  | straight
  | step
deriving DecidableEq

/-- `MindMapNode` of `src/types.ts`.  The optional `type` tag is kept as the
literal string the code compares against (`node.type === 'group'` and so on),
and optional fields are `Option`s. -/
structure MindMapNode where
  id : String
  type : Option String := none
  title : String := ""
  content : Option String := none
  x : ℚ
  y : ℚ
  width : ℚ
  height : ℚ
  color : String := ""
  parentId : Option String := none
deriving DecidableEq

/-- `MindMapEdge` of `src/types.ts`.  The source fields `from` and `to` are
Lean keywords, so they are named `fromId` and `toId` here. -/
structure MindMapEdge where
  id : String
  fromId : String
  toId : String
  fromHandle : HandlePos
  toHandle : HandlePos
  label : Option String := none
  style : Option String := none
  color : Option String := none
  arrow : Option String := none
  type : Option EdgeType := none
  breakpoints : Option (List Position) := none
  controlPoint : Option Position := none
deriving DecidableEq

/-- `ViewportTransform` of `src/types.ts`. -/
structure ViewportTransform where
  x : ℚ
  y : ℚ
  scale : ℚ
deriving DecidableEq

/-- The `HistoryState` interface of `src/App.tsx` (lines 28-31): a history
snapshot holds exactly the nodes and edges collections. -/
structure HistoryState where
  nodes : List MindMapNode
  edges : List MindMapEdge
deriving DecidableEq

/-- The React state of the `App` component of `src/App.tsx` that the verified
handlers read and write: the scene, the two history stacks, the selection and
the viewport transform.  Transient gesture state (pending connection, selection
box, snap preview) is passed to each handler as an argument instead, mirroring
how the handlers read it from refs. -/
structure AppState where
  nodes : List MindMapNode
  edges : List MindMapEdge
  past : List HistoryState
  future : List HistoryState
  selectedNodeIds : List String
  selectedEdgeId : Option String
  transform : ViewportTransform
deriving DecidableEq

/-- The pending-connection value `{nodeId, handle}` of `connectionStart` and
`snapPreview` in `src/App.tsx`. -/
structure ConnStart where
  nodeId : String
  handle : HandlePos
deriving DecidableEq

/- ### Geometry engine (`src/utils/geometry.ts`) -/

/-- `getCenter` of `src/utils/geometry.ts`. -/
def getCenter (node : MindMapNode) : Position :=
  ⟨node.x + node.width / 2, node.y + node.height / 2⟩

/-- `getHandlePosition` of `src/utils/geometry.ts`: the midpoint of the
requested side of the node's box.  The `default` branch of the source switch
is unreachable for the closed four-value union and is therefore absent. -/
def getHandlePosition (node : MindMapNode) (handle : HandlePos) : Position :=
  match handle with
  | .top => ⟨node.x + node.width / 2, node.y⟩
  | .right => ⟨node.x + node.width, node.y + node.height / 2⟩
  | .bottom => ⟨node.x + node.width / 2, node.y + node.height⟩
  | .left => ⟨node.x, node.y + node.height / 2⟩

/-- The squared distance `(pos.x - point.x)^2 + (pos.y - point.y)^2` computed
inside `getNearestHandle` before the source applies `Math.sqrt`. -/
def distSq (point pos : Position) : ℚ :=
  (pos.x - point.x) ^ 2 + (pos.y - point.y) ^ 2

/-- The comparison `Math.sqrt dSq < threshold` of `getNearestHandle`, embedded
over the rationals through the order isomorphism of `Real.sqrt` on
non-negative inputs: for `0 ≤ dSq`, `Real.sqrt dSq < t ↔ 0 < t ∧ dSq < t * t`
(see `withinThreshold_iff_sqrt` below). -/
def withinThreshold (dSq t : ℚ) : Bool :=
  decide (0 < t) && decide (dSq < t * t)

/-- The candidate record `{nodeId, handle, dist}` accumulated by
`getNearestHandle`; `dist` stores the squared distance (the source's
`dist < closest.dist` comparison of square roots is equivalent, both being
non-negative). -/
structure Closest where
  nodeId : String
  handle : HandlePos
  dist : ℚ
deriving DecidableEq

/-- The iteration order `['top', 'right', 'bottom', 'left']` of the inner
loop of `getNearestHandle`. -/
def handlesOrder : List HandlePos := [.top, .right, .bottom, .left]

/-- One iteration of the inner loop of `getNearestHandle`: test a single
(node, handle) pair against the current `closest` candidate. -/
def considerHandle (point : Position) (threshold : ℚ) (acc : Option Closest)
    (nh : MindMapNode × HandlePos) : Option Closest :=
  let pos := getHandlePosition nh.1 nh.2
  let d := distSq point pos
  if withinThreshold d threshold then
    match acc with
    | none => some ⟨nh.1.id, nh.2, d⟩
    | some c => if d < c.dist then some ⟨nh.1.id, nh.2, d⟩ else some c
  else acc

/-- The inner loop of `getNearestHandle`: scan the four handles of one node. -/
def scanHandles (point : Position) (threshold : ℚ) (node : MindMapNode)
    (acc : Option Closest) : Option Closest :=
  handlesOrder.foldl (fun a h => considerHandle point threshold a (node, h)) acc

/-- `getNearestHandle` of `src/utils/geometry.ts`, before the final projection
that drops the `dist` field. -/
def getNearestHandleAux (point : Position) (nodes : List MindMapNode)
    (excludeNodeId : String) (threshold : ℚ) : Option Closest :=
  nodes.foldl
    (fun closest node =>
      if node.id = excludeNodeId then closest
      else scanHandles point threshold node closest)
    none

/-- `getNearestHandle` of `src/utils/geometry.ts`: the closest handle of any
node other than `excludeNodeId` within `threshold` world units, or `none`.
The source default for `threshold` is 30; callers in `src/App.tsx` pass 50. -/
def getNearestHandle (point : Position) (nodes : List MindMapNode)
    (excludeNodeId : String) (threshold : ℚ) : Option (String × HandlePos) :=
  match getNearestHandleAux point nodes excludeNodeId threshold with
  | some c => some (c.nodeId, c.handle)
  | none => none

/-- The (node, handle) pairs `getNearestHandle` examines, in iteration order:
all four handles of every node except the excluded one. -/
def candidatePairs : List MindMapNode → String → List (MindMapNode × HandlePos)
  | [], _ => []
  | n :: ns, ex =>
      (if n.id = ex then [] else handlesOrder.map (fun h => (n, h)))
        ++ candidatePairs ns ex

/-- The squared distance from the query point to a candidate handle. -/
def pairDist (point : Position) (nh : MindMapNode × HandlePos) : ℚ :=
  distSq point (getHandlePosition nh.1 nh.2)

/-- `screenToWorld` of `src/utils/geometry.ts`. -/
def screenToWorld (screenPos : Position) (transform : ViewportTransform) : Position :=
  ⟨(screenPos.x - transform.x) / transform.scale,
   (screenPos.y - transform.y) / transform.scale⟩

/-- Modelled from the spec: the forward affine map
`w ↦ (w.x * T.scale + T.x, w.y * T.scale + T.y)` of which the spec asserts
`screenToWorld` is the exact inverse.  The map has no named source function;
it appears inline in `handleWheel` of `src/App.tsx` and in the CSS transform. -/
def worldToScreenSpec (w : Position) (t : ViewportTransform) : Position :=
  ⟨w.x * t.scale + t.x, w.y * t.scale + t.y⟩

/- ### History manager (`src/App.tsx` lines 193-223) -/

/-- `saveHistory` of `src/App.tsx`: push the current `{nodes, edges}` onto
`past` and clear `future`. -/
def saveHistory (s : AppState) : AppState :=
  { s with past := s.past ++ [⟨s.nodes, s.edges⟩], future := [] }

/-- `undo` of `src/App.tsx`: no-op on an empty `past`; otherwise pop the last
snapshot of `past`, push the current state onto the front of `future`, and
restore the popped snapshot. -/
def undo (s : AppState) : AppState :=
  match s.past.getLast? with
  | none => s
  | some previous =>
      { s with
        future := ⟨s.nodes, s.edges⟩ :: s.future,
        nodes := previous.nodes,
        edges := previous.edges,
        past := s.past.dropLast }

/-- `redo` of `src/App.tsx`: no-op on an empty `future`; otherwise take the
head of `future`, push the current state onto `past`, and restore it. -/
def redo (s : AppState) : AppState :=
  match s.future with
  | [] => s
  | next :: rest =>
      { s with
        past := s.past ++ [⟨s.nodes, s.edges⟩],
        nodes := next.nodes,
        edges := next.edges,
        future := rest }

/-- The checkpoint discipline of every discrete mutating action in
`src/App.tsx`: call `saveHistory()` first, then replace the nodes and edges
collections (the mutation itself is an arbitrary function `f`). -/
def applyMutatingAction
    (f : List MindMapNode × List MindMapEdge → List MindMapNode × List MindMapEdge)
    (s : AppState) : AppState :=
  let s1 := saveHistory s
  { s1 with nodes := (f (s1.nodes, s1.edges)).1, edges := (f (s1.nodes, s1.edges)).2 }

/- ### Node deletion (`src/App.tsx` lines 828-837) -/

/-- `deleteNode` of `src/App.tsx`: checkpoint, drop the node with the given
id, drop every edge incident to it, and remove the id from the selection if
selected. -/
def deleteNode (s : AppState) (id : String) : AppState :=
  let s1 := saveHistory s
  let s2 := { s1 with
    nodes := s1.nodes.filter (fun n => n.id != id),
    edges := s1.edges.filter (fun e => e.fromId != id && e.toId != id) }
  if s.selectedNodeIds.contains id then
    { s2 with selectedNodeIds := s2.selectedNodeIds.filter (fun x => x != id) }
  else s2

/- ### Connection creation (`src/App.tsx` lines 542-566 and 686-709) -/

/-- The duplicate test of `createConnection` and `handleMouseUp`: an existing
edge joins nodes `a` and `b` in either direction. -/
def edgeJoins (a b : String) (e : MindMapEdge) : Bool :=
  (e.fromId == a && e.toId == b) || (e.fromId == b && e.toId == a)

/-- The new edge literal built by `createConnection` and `handleMouseUp`:
solid style, `to` arrow, theme-dependent color; `generateId()` is passed in
as `newId`. -/
def newEdgeOf (newId fromN toN : String) (fromH toH : HandlePos)
    (darkMode : Bool) : MindMapEdge :=
  { id := newId, fromId := fromN, toId := toN,
    fromHandle := fromH, toHandle := toH,
    style := some "solid", arrow := some "to",
    color := some (if darkMode then "#a3a3a3" else "#94a3b8") }

/-- `createConnection` of `src/App.tsx`: with a pending connection start and a
distinct target, create the edge only when no edge joins the pair in either
direction, checkpointing first.  (The source also clears the transient
gesture state, which is not part of `AppState`.) -/
def createConnection (s : AppState) (connectionStart : Option ConnStart)
    (targetId : String) (targetHandle : HandlePos) (newId : String)
    (darkMode : Bool) : AppState :=
  match connectionStart with
  | none => s
  | some cs =>
    if cs.nodeId ≠ targetId then
      if s.edges.any (edgeJoins cs.nodeId targetId) then s
      else
        let s1 := saveHistory s
        { s1 with
          edges := s1.edges ++ [newEdgeOf newId cs.nodeId targetId cs.handle targetHandle darkMode] }
    else s

/-- The connect-commit branch of `handleMouseUp` in `src/App.tsx` (lines
686-709): with a pending connection and a snap preview, create the edge only
when no edge joins the pair in either direction, pushing the pre-state onto
`past` and clearing `future` first. -/
def mouseUpConnect (s : AppState) (connectionStart snap : Option ConnStart)
    (newId : String) (darkMode : Bool) : AppState :=
  match connectionStart, snap with
  | some cs, some sp =>
      if s.edges.any (edgeJoins cs.nodeId sp.nodeId) then s
      else
        { s with
          past := s.past ++ [⟨s.nodes, s.edges⟩],
          future := [],
          edges := s.edges ++ [newEdgeOf newId cs.nodeId sp.nodeId cs.handle sp.handle darkMode] }
  | _, _ => s

/- ### Group bounds (`src/App.tsx` lines 790-813) -/

/-- The child lookup `currentNodes.filter(n => n.parentId === node.id)` used
by `recalculateGroupBounds`. -/
def childrenOf (currentNodes : List MindMapNode) (gid : String) : List MindMapNode :=
  currentNodes.filter (fun n => n.parentId == some gid)

/-- The per-node body of `recalculateGroupBounds` in `src/App.tsx` (the inline
arrow function hoisted to a named definition).  The source seeds the
minimum/maximum folds with `±Infinity` and folds `Math.min`/`Math.max` over
all children; for the (guarded) non-empty child list this equals folding from
the first child.  Note the stability test compares only `x`, `width` and
`height` — the source never compares `newY` with `node.y`. -/
def recalcGroupNode (currentNodes : List MindMapNode) (node : MindMapNode) : MindMapNode :=
  if node.type = some "group" then
    match childrenOf currentNodes node.id with
    | [] => node
    | c :: cs =>
      let minX := cs.foldl (fun a n => min a n.x) c.x
      let minY := cs.foldl (fun a n => min a n.y) c.y
      let maxX := cs.foldl (fun a n => max a (n.x + n.width)) (c.x + c.width)
      let maxY := cs.foldl (fun a n => max a (n.y + n.height)) (c.y + c.height)
      let newX := minX - 30
      let newY := minY - 30 - 40
      let newWidth := (maxX - minX) + (30 * 2)
      let newHeight := (maxY - minY) + (30 * 2) + 40
      if |newX - node.x| < 1 ∧ |newWidth - node.width| < 1 ∧ |newHeight - node.height| < 1
      then node
      else { node with x := newX, y := newY, width := newWidth, height := newHeight }
  else node

/-- `recalculateGroupBounds` of `src/App.tsx`. -/
def recalculateGroupBounds (currentNodes : List MindMapNode) : List MindMapNode :=
  currentNodes.map (recalcGroupNode currentNodes)

/-- Modelled from the spec: the per-group body of `recomputeGroupBounds` as
the spec words it — "skip writing if the new box differs from the stored one
by less than 1 unit in any dimension", i.e. the stability test also covers
the `y` coordinate. -/
def recalcGroupNodeSpec (currentNodes : List MindMapNode) (node : MindMapNode) : MindMapNode :=
  if node.type = some "group" then
    match childrenOf currentNodes node.id with
    | [] => node
    | c :: cs =>
      let minX := cs.foldl (fun a n => min a n.x) c.x
      let minY := cs.foldl (fun a n => min a n.y) c.y
      let maxX := cs.foldl (fun a n => max a (n.x + n.width)) (c.x + c.width)
      let maxY := cs.foldl (fun a n => max a (n.y + n.height)) (c.y + c.height)
      let newX := minX - 30
      let newY := minY - 30 - 40
      let newWidth := (maxX - minX) + (30 * 2)
      let newHeight := (maxY - minY) + (30 * 2) + 40
      if |newX - node.x| < 1 ∧ |newY - node.y| < 1 ∧ |newWidth - node.width| < 1
          ∧ |newHeight - node.height| < 1
      then node
      else { node with x := newX, y := newY, width := newWidth, height := newHeight }
  else node

/-- Modelled from the spec: `recomputeGroupBounds` over the whole node list. -/
def recomputeGroupBoundsSpec (currentNodes : List MindMapNode) : List MindMapNode :=
  currentNodes.map (recalcGroupNodeSpec currentNodes)

/- ### Parent reconciliation (`src/App.tsx` lines 775-789) -/

/-- The `currentNodes.find(...)` call of `updateParentIds`: the first group
(in iteration order) other than the node itself whose box contains the
node's center (the source's local `center` binding is inlined). -/
def groupHit (currentNodes : List MindMapNode) (node : MindMapNode) : Option MindMapNode :=
  currentNodes.find? (fun g =>
      g.type == some "group" && g.id != node.id &&
      decide ((getCenter node).x ≥ g.x) && decide ((getCenter node).x ≤ g.x + g.width) &&
      decide ((getCenter node).y ≥ g.y) && decide ((getCenter node).y ≤ g.y + g.height))

/-- The containing-group assignment of `updateParentIds`: the found group's
id becomes the parent; cleared when none contains the center. -/
def parentLookup (currentNodes : List MindMapNode) (node : MindMapNode) : MindMapNode :=
  match groupHit currentNodes node with
  | some targetGroup => { node with parentId := some targetGroup.id }
  | none => { node with parentId := none }

/-- The per-node body of `updateParentIds` in `src/App.tsx`: group nodes are
returned unchanged; with a `specificNodeId` given, every other node is also
returned unchanged (the source guard `specificNodeId && node.id !==
specificNodeId`; callers only ever pass node ids, never the empty string, so
JS truthiness coincides with `Option.isSome`). -/
def assignParent (currentNodes : List MindMapNode) (specificNodeId : Option String)
    (node : MindMapNode) : MindMapNode :=
  if node.type = some "group" then node
  else
    match specificNodeId with
    | some sid => if node.id = sid then parentLookup currentNodes node else node
    | none => parentLookup currentNodes node

/-- `updateParentIds` of `src/App.tsx`. -/
def updateParentIds (currentNodes : List MindMapNode) (specificNodeId : Option String) :
    List MindMapNode :=
  currentNodes.map (assignParent currentNodes specificNodeId)

/- ### Group creation (`src/App.tsx` lines 394-455) -/

/-- `Math.ceil(Math.sqrt(n))` for a natural `n`, as used for the column count
in `handleCreateGroup`. -/
def ceilSqrt (n : Nat) : Nat :=
  if Nat.sqrt n * Nat.sqrt n == n then Nat.sqrt n else Nat.sqrt n + 1

/-- Stable insertion of a node into a list sorted by the comparator
`(a, b) => a.y - b.y || a.x - b.x` of `handleCreateGroup`. -/
def insertByYX (a : MindMapNode) : List MindMapNode → List MindMapNode
  | [] => [a]
  | b :: bs =>
      if b.y < a.y ∨ (b.y = a.y ∧ b.x < a.x) then b :: insertByYX a bs
      else a :: b :: bs

/-- The stable `Array.prototype.sort` call of `handleCreateGroup` with the
comparator `(a, b) => a.y - b.y || a.x - b.x`, modelled as a stable insertion
sort. -/
def sortByYX : List MindMapNode → List MindMapNode
  | [] => []
  | x :: xs => insertByYX x (sortByYX xs)

/-- The running state of the grid-layout loop of `handleCreateGroup`:
`currentX`, `currentY`, `rowMaxHeight` and the accumulated `layoutMap`
(a JS `Map` keyed by node id; ids are unique in practice). -/
structure LayoutState where
  currentX : ℚ
  currentY : ℚ
  rowMaxHeight : ℚ
  layout : List (String × Position)
deriving DecidableEq

/-- One iteration of the `selectedNodes.forEach((node, index) => ...)` layout
loop of `handleCreateGroup` (`GAP = 20`); the second component carries the
loop index. -/
def layoutStep (columns : Nat) (minX minY : ℚ) (acc : LayoutState × Nat)
    (node : MindMapNode) : LayoutState × Nat :=
  let st0 := acc.1
  let index := acc.2
  let st1 :=
    if index > 0 ∧ index % columns = 0 then
      { st0 with currentX := 0, currentY := st0.currentY + st0.rowMaxHeight + 20,
                 rowMaxHeight := 0 }
    else st0
  let st2 := { st1 with
    layout := st1.layout ++ [(node.id, (⟨minX + st1.currentX, minY + st1.currentY⟩ : Position))] }
  let st3 := { st2 with
    currentX := st2.currentX + node.width + 20,
    rowMaxHeight := max st2.rowMaxHeight node.height }
  (st3, index + 1)

/-- The position update applied to each node by `handleCreateGroup`'s
`updatedNodes` map: take the laid-out position from the layout map when the
node was selected, otherwise leave the node alone. -/
def applyLayout (layoutMap : List (String × Position)) (n : MindMapNode) : MindMapNode :=
  match layoutMap.lookup n.id with
  | some pos => { n with x := pos.x, y := pos.y }
  | none => n

/-- The parent assignment applied to each node at the end of
`handleCreateGroup`: every selected node gets the fresh group id as parent. -/
def assignGroupParent (selectedIds : List String) (newGroupId : String)
    (n : MindMapNode) : MindMapNode :=
  if selectedIds.contains n.id then { n with parentId := some newGroupId } else n

/-- `handleCreateGroup` of `src/App.tsx`: checkpoint, lay out the selected
nodes in a grid, append a fresh group node sized to the padded union of the
laid-out boxes (`PADDING = 40`, `TITLE_OFFSET = 40`), and assign the fresh
group id as `parentId` to every selected node.  `generateId()` is passed in
as `newGroupId`.  The source sorts `selectedNodes` in place and then iterates
the sorted array for the extent folds; since minimum and maximum are
iteration-order independent, the folds here run over the sorted list. -/
def handleCreateGroup (s : AppState) (newGroupId : String) : AppState :=
  if s.selectedNodeIds = [] then s
  else
    let s1 := saveHistory s
    let selectedNodes := s1.nodes.filter (fun n => s1.selectedNodeIds.contains n.id)
    match sortByYX selectedNodes with
    | [] => s1
    | c :: cs =>
      let columns := ceilSqrt (c :: cs).length
      let minX := cs.foldl (fun a n => min a n.x) c.x
      let minY := cs.foldl (fun a n => min a n.y) c.y
      let layoutMap :=
        ((c :: cs).foldl (layoutStep columns minX minY) ((⟨0, 0, 0, []⟩ : LayoutState), 0)).1.layout
      let posOf := fun (n : MindMapNode) => (layoutMap.lookup n.id).getD (⟨n.x, n.y⟩ : Position)
      let updatedNodes := s1.nodes.map (applyLayout layoutMap)
      let gMinX := cs.foldl (fun a n => min a (posOf n).x) (posOf c).x
      let gMinY := cs.foldl (fun a n => min a (posOf n).y) (posOf c).y
      let gMaxX := cs.foldl (fun a n => max a ((posOf n).x + n.width)) ((posOf c).x + c.width)
      let gMaxY := cs.foldl (fun a n => max a ((posOf n).y + n.height)) ((posOf c).y + c.height)
      let groupNode : MindMapNode :=
        { id := newGroupId, type := some "group", title := "新分组", content := some "",
          x := gMinX - 40, y := gMinY - 40 - 40,
          width := (gMaxX - gMinX) + (40 * 2),
          height := (gMaxY - gMinY) + (40 * 2) + 40,
          color := "gray" }
      let updatedNodes2 := updatedNodes.map (assignGroupParent s1.selectedNodeIds newGroupId)
      { s1 with nodes := updatedNodes2 ++ [groupNode], selectedNodeIds := [newGroupId] }

/- ### AI expansion commit (`src/App.tsx` lines 851-916) -/

/-- One `{title, content}` suggestion returned by the idea-expansion backend
(`AiResult` of `src/services/aiService.ts`). -/
structure AiResult where
  title : String
  content : String
deriving DecidableEq

/-- One new node pushed by the `suggestions.forEach` loop of `handleAiExpand`.
The radial fan position `(node.x + radius * cos(fanAngle) + 100, node.y +
radius * sin(fanAngle))` involves transcendental functions that do not affect
the `type`/`parentId` fields under verification, so the computed position is
passed in as `pos`. -/
def aiExpandNewNode (srcNode : MindMapNode) (item : AiResult) (newNodeId : String)
    (pos : Position) : MindMapNode :=
  { id := newNodeId, type := some "node", title := item.title, content := some item.content,
    x := pos.x, y := pos.y, width := 120, height := 120,
    color := if srcNode.color = "gray" then "blue" else srcNode.color,
    parentId := some srcNode.id }

/-- The successful-response commit of `handleAiExpand`: checkpoint, then
append one new node and one new source→child edge per suggestion.  The fresh
`generateId()` values are passed in as lists. -/
def aiExpandCommit (s : AppState) (srcNode : MindMapNode) (suggestions : List AiResult)
    (newNodeIds newEdgeIds : List String) (positions : List Position)
    (darkMode : Bool) : AppState :=
  let s1 := saveHistory s
  let newNodes := (suggestions.zip (newNodeIds.zip positions)).map
      (fun p => aiExpandNewNode srcNode p.1 p.2.1 p.2.2)
  let newEdges : List MindMapEdge := (newNodeIds.zip newEdgeIds).map (fun p =>
      { id := p.2, fromId := srcNode.id, toId := p.1,
        fromHandle := .right, toHandle := .left,
        style := some "solid", arrow := some "to",
        color := some (if darkMode then "#a3a3a3" else "#94a3b8") })
  { s1 with nodes := s1.nodes ++ newNodes, edges := s1.edges ++ newEdges }

/- ### Selection-changing handlers (`src/App.tsx` lines 255-274, 479-516, 652-679) -/

/-- The selection part of `handleNodeMouseDown`: shift toggles the pressed id
in the node selection, otherwise the selection is replaced by the pressed id
unless already selected; either way the edge selection is cleared. -/
def handleNodeMouseDownSelect (s : AppState) (shiftKey : Bool) (id : String) : AppState :=
  if shiftKey then
    let next := if s.selectedNodeIds.contains id
      then s.selectedNodeIds.filter (fun x => x != id)
      else s.selectedNodeIds ++ [id]
    { s with selectedNodeIds := next, selectedEdgeId := none }
  else
    let sel := if s.selectedNodeIds.contains id then s.selectedNodeIds else [id]
    { s with selectedNodeIds := sel, selectedEdgeId := none }

/-- `handleEdgeSelect` of `src/App.tsx`: select the edge, clear the node
selection. -/
def handleEdgeSelect (s : AppState) (id : String) : AppState :=
  { s with selectedEdgeId := some id, selectedNodeIds := [] }

/-- The selection part of `handleMouseDownCanvas`: middle button or
modifier+primary starts panning (selection untouched); primary without shift
clears both selections (and opens the selection box, which is transient
state); primary with shift leaves the selection untouched. -/
def handleMouseDownCanvasSelect (s : AppState) (button : Nat)
    (ctrlOrMeta shiftKey : Bool) : AppState :=
  if button = 1 ∨ (button = 0 ∧ ctrlOrMeta) then s
  else if button = 0 ∧ ¬shiftKey then { s with selectedNodeIds := [], selectedEdgeId := none }
  else s

/-- The screen-space selection rectangle of `src/App.tsx` (`selectionBox`). -/
structure SelectionBox where
  start : Position
  endPos : Position
deriving DecidableEq

/-- The box-select commit branch of `handleMouseUp` in `src/App.tsx` (lines
652-679): convert the screen rectangle to world space and replace the node
selection with every node fully contained in it, when at least one is; the
edge selection is not touched. -/
def boxSelectCommit (s : AppState) (box : SelectionBox) : AppState :=
  let x1 := min box.start.x box.endPos.x
  let y1 := min box.start.y box.endPos.y
  let x2 := max box.start.x box.endPos.x
  let y2 := max box.start.y box.endPos.y
  let p1 := screenToWorld ⟨x1, y1⟩ s.transform
  let p2 := screenToWorld ⟨x2, y2⟩ s.transform
  let minWX := min p1.x p2.x
  let minWY := min p1.y p2.y
  let maxWX := max p1.x p2.x
  let maxWY := max p1.y p2.y
  let selected := (s.nodes.filter (fun n =>
      decide (n.x ≥ minWX) && decide (n.x + n.width ≤ maxWX) &&
      decide (n.y ≥ minWY) && decide (n.y + n.height ≤ maxWY))).map (fun n => n.id)
  if selected.length > 0 then { s with selectedNodeIds := selected } else s

/-- The spec's selection invariant: either the node selection is empty or no
edge is selected — never both a non-empty node selection and a selected
edge. -/
def selectionExclusive (s : AppState) : Prop :=
  s.selectedNodeIds = [] ∨ s.selectedEdgeId = none

instance (s : AppState) : Decidable (selectionExclusive s) := by
  unfold selectionExclusive
  infer_instance

/- ### Arrow angles (`src/components/EdgeComponent.tsx` lines 49-127)

The arrow code computes angles with `Math.atan2` and `Math.sqrt`, so this part
of the embedding lives over the reals. -/

attribute [local instance] Classical.propDecidable

/-- JavaScript `Math.atan2(y, x)` over the reals (`atan2 0 0 = 0`). -/
noncomputable def atan2 (y x : ℝ) : ℝ :=
  if 0 < x then Real.arctan (y / x)
  else if x < 0 ∧ 0 ≤ y then Real.arctan (y / x) + Real.pi
  else if x < 0 ∧ y < 0 then Real.arctan (y / x) - Real.pi
  else if x = 0 ∧ 0 < y then Real.pi / 2
  else if x = 0 ∧ y < 0 then -(Real.pi / 2)
  else 0

/-- A world point with its rational coordinates cast to the reals. -/
def toR (p : Position) : ℝ × ℝ := ((p.x : ℝ), (p.y : ℝ))

/-- `getQuadraticAngleAtT` of `src/utils/geometry.ts`: the quadratic Bézier
derivative direction at `t`, in degrees. -/
noncomputable def getQuadraticAngleAtT (start cp stop : ℝ × ℝ) (t : ℝ) : ℝ :=
  let dx := 2 * (1 - t) * (cp.1 - start.1) + 2 * t * (stop.1 - cp.1)
  let dy := 2 * (1 - t) * (cp.2 - start.2) + 2 * t * (stop.2 - cp.2)
  atan2 dy dx * (180 / Real.pi)

/-- `getCubicAngleAtT` of `src/utils/geometry.ts`: the cubic Bézier derivative
direction at `t`, in degrees. -/
noncomputable def getCubicAngleAtT (start cp1 cp2 stop : ℝ × ℝ) (t : ℝ) : ℝ :=
  let dx := 3 * (1 - t) ^ 2 * (cp1.1 - start.1) + 6 * (1 - t) * t * (cp2.1 - cp1.1)
      + 3 * t ^ 2 * (stop.1 - cp2.1)
  let dy := 3 * (1 - t) ^ 2 * (cp1.2 - start.2) + 6 * (1 - t) * t * (cp2.2 - cp1.2)
      + 3 * t ^ 2 * (stop.2 - cp2.2)
  atan2 dy dx * (180 / Real.pi)

/-- Which endpoint an arrow is rendered at (`renderArrow('start' | 'end')`). -/
inductive ArrowEnd where
  | atStart
  | atEnd
deriving DecidableEq

/-- The breakpoint fallback of `EdgeComponent`:
`edge.breakpoints || (edge.controlPoint ? [edge.controlPoint] : [])`.
A present empty array is truthy in JS and is therefore kept. -/
def effBreakpoints (edge : MindMapEdge) : List Position :=
  match edge.breakpoints, edge.controlPoint with
  | some bs, _ => bs
  | none, some cp => [cp]
  | none, none => []

/-- The fixed lookup table of the `step` branch of `renderArrow`
(top ↦ 90, bottom ↦ 270, left ↦ 0, right ↦ 180 degrees), keyed by the
endpoint's handle side; the same table is used for both endpoints. -/
def stepArrowAngle : HandlePos → ℚ
  | .top => 90
  | .bottom => 270
  | .left => 0
  | .right => 180

/-- The angle computed by `renderArrow` in
`src/components/EdgeComponent.tsx`: lookup table for `step`; `atan2` on the
adjacent polyline segment for `straight`; quadratic derivative with exactly
one breakpoint; cubic derivative with projected control points otherwise. -/
noncomputable def renderArrowAngle (edge : MindMapEdge) (sourceNode targetNode : MindMapNode)
    (position : ArrowEnd) : ℝ :=
  let start := getHandlePosition sourceNode edge.fromHandle
  let stop := getHandlePosition targetNode edge.toHandle
  let breakpoints := effBreakpoints edge
  match edge.type with
  | some .step =>
      ((stepArrowAngle
          (match position with | .atStart => edge.fromHandle | .atEnd => edge.toHandle) : ℚ) : ℝ)
  | some .straight =>
      match position with
      | .atStart =>
          let target := match breakpoints with
            | b :: _ => b
            | [] => stop
          atan2 ((target.y : ℝ) - (start.y : ℝ)) ((target.x : ℝ) - (start.x : ℝ))
            * (180 / Real.pi) + 180
      | .atEnd =>
          let source := match breakpoints.getLast? with
            | some b => b
            | none => start
          atan2 ((stop.y : ℝ) - (source.y : ℝ)) ((stop.x : ℝ) - (source.x : ℝ))
            * (180 / Real.pi)
  | _ =>
      match breakpoints with
      | [cp] =>
          match position with
          | .atStart => getQuadraticAngleAtT (toR start) (toR cp) (toR stop) 0 + 180
          | .atEnd => getQuadraticAngleAtT (toR start) (toR cp) (toR stop) 1
      | _ =>
          let dist := Real.sqrt (((stop.x : ℝ) - (start.x : ℝ)) ^ 2
              + ((stop.y : ℝ) - (start.y : ℝ)) ^ 2)
          let controlOffset := min (dist * 0.5) 100
          let cp1 : ℝ × ℝ :=
            match edge.fromHandle with
            | .top => ((start.x : ℝ), (start.y : ℝ) - controlOffset)
            | .bottom => ((start.x : ℝ), (start.y : ℝ) + controlOffset)
            | .left => ((start.x : ℝ) - controlOffset, (start.y : ℝ))
            | .right => ((start.x : ℝ) + controlOffset, (start.y : ℝ))
          let cp2 : ℝ × ℝ :=
            match edge.toHandle with
            | .top => ((stop.x : ℝ), (stop.y : ℝ) - controlOffset)
            | .bottom => ((stop.x : ℝ), (stop.y : ℝ) + controlOffset)
            | .left => ((stop.x : ℝ) - controlOffset, (stop.y : ℝ))
            | .right => ((stop.x : ℝ) + controlOffset, (stop.y : ℝ))
          match position with
          | .atStart => getCubicAngleAtT (toR start) cp1 cp2 (toR stop) 0 + 180
          | .atEnd => getCubicAngleAtT (toR start) cp1 cp2 (toR stop) 1

/-- Modelled from the spec: for straight and step edges the arrow angle is
"taken directly from the handle's fixed outward axis (a lookup table by
handle side), not from curve derivatives" — the table the code uses for step
edges, applied by the spec to both routing types. -/
def arrowAngleSpecTable (edge : MindMapEdge) (position : ArrowEnd) : ℚ :=
  stepArrowAngle (match position with | .atStart => edge.fromHandle | .atEnd => edge.toHandle)

/- ### Concrete scenes used by witnesses and counterexamples -/

/-- A group whose stored box agrees with the recomputed one in `x`, `width`
and `height` but is 60 units off in `y`. -/
def exGroupNode : MindMapNode :=
  { id := "g", type := some "group", x := -30, y := 0, width := 160, height := 200,
    color := "gray" }

/-- The single child of `exGroupNode`. -/
def exChildNode : MindMapNode :=
  { id := "c", type := some "node", x := 0, y := 10, width := 100, height := 100,
    color := "blue", parentId := some "g" }

/-- A plain node at the origin. -/
def exNode1 : MindMapNode :=
  { id := "n1", x := 0, y := 0, width := 100, height := 50, color := "blue" }

/-- An edge between two off-scene nodes, used as a selected edge. -/
def exEdge1 : MindMapEdge :=
  { id := "e1", fromId := "a", toId := "b", fromHandle := .right, toHandle := .left }

/-- A state with an edge selected and no node selected. -/
def exState7 : AppState :=
  { nodes := [exNode1], edges := [exEdge1], past := [], future := [],
    selectedNodeIds := [], selectedEdgeId := some "e1", transform := ⟨0, 0, 1⟩ }

/-- A screen-space selection rectangle fully covering `exNode1` at scale 1. -/
def exBox7 : SelectionBox := { start := ⟨-10, -10⟩, endPos := ⟨200, 200⟩ }

/-- A group node, selected together with `exNodeA` when creating a group. -/
def exGroupA : MindMapNode :=
  { id := "g1", type := some "group", x := 0, y := 0, width := 200, height := 200,
    color := "gray" }

/-- A standard node, selected together with `exGroupA`. -/
def exNodeA : MindMapNode :=
  { id := "n1", type := some "node", x := 300, y := 0, width := 100, height := 50,
    color := "blue" }

/-- A state in which a group and a standard node are both selected. -/
def exState8 : AppState :=
  { nodes := [exGroupA, exNodeA], edges := [], past := [], future := [],
    selectedNodeIds := ["g1", "n1"], selectedEdgeId := none, transform := ⟨0, 0, 1⟩ }

/-- Source node of the straight test edge; its bottom handle is at (50, 50). -/
def exSrc9 : MindMapNode :=
  { id := "A", x := 0, y := 0, width := 100, height := 50, color := "blue" }

/-- Target node of the straight test edge; its left handle is at (50, 200),
so the segment from (50, 50) points straight down. -/
def exTgt9 : MindMapNode :=
  { id := "B", x := 50, y := 175, width := 100, height := 50, color := "blue" }

/-- A `straight` edge with no breakpoints from `exSrc9`'s bottom handle to
`exTgt9`'s left handle. -/
def exStraightEdge : MindMapEdge :=
  { id := "e9", fromId := "A", toId := "B", fromHandle := .bottom, toHandle := .left,
    type := some .straight }

/-- The same endpoints as `exStraightEdge` but with `step` routing. -/
def exStepEdge : MindMapEdge :=
  { id := "e9s", fromId := "A", toId := "B", fromHandle := .bottom, toHandle := .left,
    type := some .step }

/-- A `straight` edge like `exStraightEdge` but with one breakpoint, so its
arrow segments run to/from the breakpoint rather than the opposite handle. -/
def exStraightEdgeBp : MindMapEdge :=
  { id := "e9p", fromId := "A", toId := "B", fromHandle := .bottom, toHandle := .left,
    type := some .straight, breakpoints := some [⟨80, 90⟩] }

/-- An existing a→b edge, for the duplicate-connection scenario. -/
def exEdgeAB : MindMapEdge :=
  { id := "e0", fromId := "a", toId := "b", fromHandle := .right, toHandle := .left }

/-- A state that already contains the a→b edge. -/
def exState3 : AppState :=
  { nodes := [], edges := [exEdgeAB], past := [], future := [],
    selectedNodeIds := [], selectedEdgeId := none, transform := ⟨0, 0, 1⟩ }

/-- A node whose top handle sits at (2, 2). -/
def exNode6 : MindMapNode :=
  { id := "a", x := 1, y := 2, width := 2, height := 2, color := "blue" }

end Mindo

namespace Mindo

/- ### Helper lemmas -/

theorem getLast?_append_singleton {α : Type} (l : List α) (a : α) :
    (l ++ [a]).getLast? = some a := by
  induction l with
  | nil => rfl
  | cons b bs ih =>
      cases bs with
      | nil => rfl
      | cons c cs => simpa using ih

theorem dropLast_append_singleton {α : Type} (l : List α) (a : α) :
    (l ++ [a]).dropLast = l := by
  simp

/- ### Claim theorems -/

/-- C1: for every mutating action that pushes a history checkpoint
(`saveHistory` followed by an arbitrary replacement of the nodes and edges
collections), `undo()` immediately afterwards restores exactly the pre-action
nodes and edges, and `redo()` immediately after that restores exactly the
post-action nodes and edges. -/
theorem C1_undo_redo_roundtrip (s : AppState)
    (f : List MindMapNode × List MindMapEdge → List MindMapNode × List MindMapEdge) :
    (undo (applyMutatingAction f s)).nodes = s.nodes
  ∧ (undo (applyMutatingAction f s)).edges = s.edges
  ∧ (redo (undo (applyMutatingAction f s))).nodes = (applyMutatingAction f s).nodes
  ∧ (redo (undo (applyMutatingAction f s))).edges = (applyMutatingAction f s).edges := by
  unfold applyMutatingAction saveHistory undo redo
  simp [getLast?_append_singleton, dropLast_append_singleton]

/-- C10: `undo()` and `redo()` modify only the nodes, edges and history
stacks; the viewport transform and the selection (selected node id set and
selected edge id) are left unchanged by both.  (History snapshots contain
exactly `{nodes, edges}` by the definition of `HistoryState`.) -/
theorem C10_undo_redo_frame (s : AppState) :
    (undo s).transform = s.transform
  ∧ (undo s).selectedNodeIds = s.selectedNodeIds
  ∧ (undo s).selectedEdgeId = s.selectedEdgeId
  ∧ (redo s).transform = s.transform
  ∧ (redo s).selectedNodeIds = s.selectedNodeIds
  ∧ (redo s).selectedEdgeId = s.selectedEdgeId := by
  unfold undo redo
  cases hp : s.past.getLast? <;> cases hf : s.future <;> simp

/-- C2: deleting node `X` removes node `X` and exactly the edges whose `from`
or `to` field equals `X`; all other nodes and edges survive unchanged
(membership in the resulting collections is characterised exactly). -/
theorem C2_deleteNode_cascade (s : AppState) (X : String) :
    (∀ n : MindMapNode, n ∈ (deleteNode s X).nodes ↔ n ∈ s.nodes ∧ n.id ≠ X)
  ∧ (∀ e : MindMapEdge, e ∈ (deleteNode s X).edges ↔
        e ∈ s.edges ∧ ¬(e.fromId = X ∨ e.toId = X)) := by
  unfold deleteNode saveHistory
  split_ifs <;> simp [List.mem_filter, not_or]

/-- C3: releasing a connect gesture on a snap target creates a new edge only
when no existing edge joins the same pair of nodes in either direction; when
such an edge exists (in either direction) the attempt is rejected and the
edge collection is left unchanged.  The first conjunct ties the duplicate
test to its set-theoretic meaning; the rest covers both commit paths
(`handleMouseUp` and `createConnection`). -/
theorem C3_duplicate_connection_rejected (s : AppState) (cs sp : ConnStart)
    (newId : String) (darkMode : Bool) :
    (s.edges.any (edgeJoins cs.nodeId sp.nodeId) = true ↔
        ∃ e ∈ s.edges, (e.fromId = cs.nodeId ∧ e.toId = sp.nodeId)
          ∨ (e.fromId = sp.nodeId ∧ e.toId = cs.nodeId))
  ∧ (s.edges.any (edgeJoins cs.nodeId sp.nodeId) = true →
        (mouseUpConnect s (some cs) (some sp) newId darkMode).edges = s.edges)
  ∧ (s.edges.any (edgeJoins cs.nodeId sp.nodeId) = false →
        (mouseUpConnect s (some cs) (some sp) newId darkMode).edges
          = s.edges ++ [newEdgeOf newId cs.nodeId sp.nodeId cs.handle sp.handle darkMode])
  ∧ (s.edges.any (edgeJoins cs.nodeId sp.nodeId) = true →
        (createConnection s (some cs) sp.nodeId sp.handle newId darkMode).edges = s.edges)
  ∧ (s.edges.any (edgeJoins cs.nodeId sp.nodeId) = false → cs.nodeId ≠ sp.nodeId →
        (createConnection s (some cs) sp.nodeId sp.handle newId darkMode).edges
          = s.edges ++ [newEdgeOf newId cs.nodeId sp.nodeId cs.handle sp.handle darkMode]) := by
  refine ⟨?_, ?_, ?_, ?_, ?_⟩
  · simp [List.any_eq_true, edgeJoins, and_assoc]
  · intro h
    simp [mouseUpConnect, h]
  · intro h
    simp [mouseUpConnect, h]
  · intro h
    simp [createConnection, h]
  · intro h hne
    simp [createConnection, saveHistory, hne, h]

/-- Witness for C3 at a concrete scene: the a→b edge already exists, so a
b→a connect attempt leaves the edge collection unchanged. -/
theorem C3_duplicate_connection_rejected_witness :
    (mouseUpConnect exState3 (some ⟨"b", .left⟩) (some ⟨"a", .right⟩) "fresh" false).edges
      = exState3.edges :=
  (C3_duplicate_connection_rejected exState3 ⟨"b", .left⟩ ⟨"a", .right⟩ "fresh" false).2.1
    (by decide)

/-- C5: `screenToWorld(p, T) = ((p.x - T.x)/T.scale, (p.y - T.y)/T.scale)`,
and for every transform with positive scale it is the exact two-sided inverse
of the forward affine map `w ↦ (w.x * T.scale + T.x, w.y * T.scale + T.y)`. -/
theorem C5_screenToWorld_inverse (p w : Position) (t : ViewportTransform)
    (h : 0 < t.scale) :
    screenToWorld p t = ⟨(p.x - t.x) / t.scale, (p.y - t.y) / t.scale⟩
  ∧ screenToWorld (worldToScreenSpec w t) t = w
  ∧ worldToScreenSpec (screenToWorld p t) t = p := by
  have hne : t.scale ≠ 0 := ne_of_gt h
  refine ⟨rfl, ?_, ?_⟩
  · obtain ⟨wx, wy⟩ := w
    simp only [screenToWorld, worldToScreenSpec, Position.mk.injEq]
    constructor <;> field_simp
  · obtain ⟨px, py⟩ := p
    simp only [screenToWorld, worldToScreenSpec, Position.mk.injEq]
    constructor <;> field_simp

/-- Witness for C5 at the concrete transform `{x := 3, y := 4, scale := 2}`
and points `(1, 1)` and `(5, 6)`. -/
theorem C5_screenToWorld_inverse_witness :
    screenToWorld ⟨1, 1⟩ ⟨3, 4, 2⟩ = ⟨((1 : ℚ) - 3) / 2, ((1 : ℚ) - 4) / 2⟩
  ∧ screenToWorld (worldToScreenSpec ⟨5, 6⟩ ⟨3, 4, 2⟩) ⟨3, 4, 2⟩ = ⟨5, 6⟩
  ∧ worldToScreenSpec (screenToWorld ⟨1, 1⟩ ⟨3, 4, 2⟩) ⟨3, 4, 2⟩ = ⟨1, 1⟩ :=
  C5_screenToWorld_inverse ⟨1, 1⟩ ⟨5, 6⟩ ⟨3, 4, 2⟩ (by norm_num)

/-- C7 counterexample: box select started with shift held does not clear an
existing edge selection, and the box-select commit does not either — from the
reachable state "edge e1 selected, shift-press on canvas, drag the box over
node n1, release", the commit produces a state with both a non-empty node
selection and a selected edge, refuting the claimed invariant preservation. -/
theorem C7_box_select_keeps_edge_counterexample :
    selectionExclusive exState7
  ∧ (handleMouseDownCanvasSelect exState7 0 false true).selectedEdgeId = some "e1"
  ∧ (boxSelectCommit exState7 exBox7).selectedNodeIds = ["n1"]
  ∧ (boxSelectCommit exState7 exBox7).selectedEdgeId = some "e1"
  ∧ ¬ selectionExclusive (boxSelectCommit exState7 exBox7) := by
  have hbox : boxSelectCommit exState7 exBox7
      = { exState7 with selectedNodeIds := ["n1"] } := by
    norm_num [boxSelectCommit, screenToWorld, exState7, exBox7, exNode1, exEdge1,
      List.filter]
  refine ⟨Or.inl rfl, rfl, ?_, ?_, ?_⟩
  · rw [hbox]
  · rw [hbox]
    simp [exState7]
  · rw [hbox]
    simp [selectionExclusive, exState7]

/-- C7 (amended): the selection exclusivity invariant is preserved by node
press, edge press and canvas press; the box-select commit preserves it only
when no edge is selected at commit time (which holds whenever the box select
was started without shift, since that press clears both selections). -/
theorem C7_selection_exclusive_amended (s : AppState) (shift ctrl : Bool)
    (id : String) (button : Nat) (box : SelectionBox)
    (h : selectionExclusive s) :
    selectionExclusive (handleNodeMouseDownSelect s shift id)
  ∧ selectionExclusive (handleEdgeSelect s id)
  ∧ selectionExclusive (handleMouseDownCanvasSelect s button ctrl shift)
  ∧ (s.selectedEdgeId = none → selectionExclusive (boxSelectCommit s box)) := by
  refine ⟨?_, ?_, ?_, ?_⟩
  · unfold handleNodeMouseDownSelect selectionExclusive
    split_ifs <;> simp
  · simp [handleEdgeSelect, selectionExclusive]
  · unfold handleMouseDownCanvasSelect selectionExclusive
    split_ifs <;> simp_all [selectionExclusive]
  · intro he
    refine Or.inr ?_
    simp only [boxSelectCommit]
    split_ifs <;> simpa using he

/-- Witness for C7 (amended) at the concrete state with the edge selected
and nothing else, checking all four preserved operations. -/
theorem C7_selection_exclusive_amended_witness :
    selectionExclusive (handleNodeMouseDownSelect exState7 false "n1")
  ∧ selectionExclusive (handleEdgeSelect exState7 "n1")
  ∧ selectionExclusive (handleMouseDownCanvasSelect exState7 0 false false)
  ∧ (exState7.selectedEdgeId = none → selectionExclusive (boxSelectCommit exState7 exBox7)) :=
  C7_selection_exclusive_amended exState7 false false "n1" 0 exBox7 (Or.inl rfl)

/-- Folding `Math.min` over a list from a seed computes the least element of
the seed together with the listed values. -/
theorem foldl_min_isLeast {α : Type} (f : α → ℚ) :
    ∀ (cs : List α) (a : ℚ),
      IsLeast (insert a {q : ℚ | ∃ n ∈ cs, f n = q})
        (cs.foldl (fun x n => min x (f n)) a) := by
  intro cs
  induction cs with
  | nil =>
      intro a
      constructor
      · exact Set.mem_insert _ _
      · rintro b (rfl | ⟨n, hn, rfl⟩)
        · exact le_refl _
        · cases hn
  | cons n ns ih =>
      intro a
      simp only [List.foldl_cons]
      have h := ih (min a (f n))
      constructor
      · rcases h.1 with hm | hm
        · rcases min_choice a (f n) with hc | hc
          · rw [hm, hc]
            exact Set.mem_insert _ _
          · rw [hm, hc]
            exact Set.mem_insert_of_mem _ ⟨n, by simp, rfl⟩
        · rcases hm with ⟨m, hmem, hfm⟩
          exact Set.mem_insert_of_mem _ ⟨m, by simp [hmem], hfm⟩
      · rintro b (rfl | ⟨m, hmem, rfl⟩)
        · exact le_trans (h.2 (Set.mem_insert _ _)) (min_le_left _ _)
        · rcases List.mem_cons.mp hmem with rfl | hmem'
          · exact le_trans (h.2 (Set.mem_insert _ _)) (min_le_right _ _)
          · exact h.2 (Set.mem_insert_of_mem _ ⟨m, hmem', rfl⟩)

/-- Folding `Math.max` over a list from a seed computes the greatest element
of the seed together with the listed values. -/
theorem foldl_max_isGreatest {α : Type} (f : α → ℚ) :
    ∀ (cs : List α) (a : ℚ),
      IsGreatest (insert a {q : ℚ | ∃ n ∈ cs, f n = q})
        (cs.foldl (fun x n => max x (f n)) a) := by
  intro cs
  induction cs with
  | nil =>
      intro a
      constructor
      · exact Set.mem_insert _ _
      · rintro b (rfl | ⟨n, hn, rfl⟩)
        · exact le_refl _
        · cases hn
  | cons n ns ih =>
      intro a
      simp only [List.foldl_cons]
      have h := ih (max a (f n))
      constructor
      · rcases h.1 with hm | hm
        · rcases max_choice a (f n) with hc | hc
          · rw [hm, hc]
            exact Set.mem_insert _ _
          · rw [hm, hc]
            exact Set.mem_insert_of_mem _ ⟨n, by simp, rfl⟩
        · rcases hm with ⟨m, hmem, hfm⟩
          exact Set.mem_insert_of_mem _ ⟨m, by simp [hmem], hfm⟩
      · rintro b (rfl | ⟨m, hmem, rfl⟩)
        · exact le_trans (le_max_left _ _) (h.2 (Set.mem_insert _ _))
        · rcases List.mem_cons.mp hmem with rfl | hmem'
          · exact le_trans (le_max_right _ _) (h.2 (Set.mem_insert _ _))
          · exact h.2 (Set.mem_insert_of_mem _ ⟨m, hmem', rfl⟩)

/-- The seeded minimum fold over a non-empty list, phrased on the cons cell as
the source's `±Infinity`-seeded fold reduces to. -/
theorem foldl_min_isLeast_cons {α : Type} (f : α → ℚ) (c : α) (cs : List α) :
    IsLeast {q : ℚ | ∃ n ∈ c :: cs, f n = q}
      (cs.foldl (fun x n => min x (f n)) (f c)) := by
  have h := foldl_min_isLeast f cs (f c)
  have hset : insert (f c) {q : ℚ | ∃ n ∈ cs, f n = q}
      = {q : ℚ | ∃ n ∈ c :: cs, f n = q} := by
    ext q
    constructor
    · rintro (rfl | ⟨n, hn, rfl⟩)
      · exact ⟨c, by simp, rfl⟩
      · exact ⟨n, by simp [hn], rfl⟩
    · rintro ⟨n, hn, rfl⟩
      rcases List.mem_cons.mp hn with rfl | hn'
      · exact Set.mem_insert _ _
      · exact Set.mem_insert_of_mem _ ⟨n, hn', rfl⟩
  rw [hset] at h
  exact h

/-- The seeded maximum fold over a non-empty list, phrased on the cons cell. -/
theorem foldl_max_isGreatest_cons {α : Type} (f : α → ℚ) (c : α) (cs : List α) :
    IsGreatest {q : ℚ | ∃ n ∈ c :: cs, f n = q}
      (cs.foldl (fun x n => max x (f n)) (f c)) := by
  have h := foldl_max_isGreatest f cs (f c)
  have hset : insert (f c) {q : ℚ | ∃ n ∈ cs, f n = q}
      = {q : ℚ | ∃ n ∈ c :: cs, f n = q} := by
    ext q
    constructor
    · rintro (rfl | ⟨n, hn, rfl⟩)
      · exact ⟨c, by simp, rfl⟩
      · exact ⟨n, by simp [hn], rfl⟩
    · rintro ⟨n, hn, rfl⟩
      rcases List.mem_cons.mp hn with rfl | hn'
      · exact Set.mem_insert _ _
      · exact Set.mem_insert_of_mem _ ⟨n, hn', rfl⟩
  rw [hset] at h
  exact h

/-- C4 counterexample: on the concrete scene `[exGroupNode, exChildNode]`
the recomputed group box agrees with the stored one in `x`, `width` and
`height` but differs by 60 units in `y`; the code's stability test never
compares `y`, so it skips the write, while the spec's "less than 1 unit in
any dimension" rule demands it — the code and the spec-modelled function
disagree at this input. -/
theorem C4_skip_ignores_y_counterexample :
    recalculateGroupBounds [exGroupNode, exChildNode] = [exGroupNode, exChildNode]
  ∧ recomputeGroupBoundsSpec [exGroupNode, exChildNode]
      = [{ exGroupNode with y := -60 }, exChildNode]
  ∧ recalculateGroupBounds [exGroupNode, exChildNode]
      ≠ recomputeGroupBoundsSpec [exGroupNode, exChildNode] := by
  have hne : ("node" : String) ≠ "group" := by decide
  have hchg : childrenOf [exGroupNode, exChildNode] exGroupNode.id = [exChildNode] := by rfl
  have hchc : childrenOf [exGroupNode, exChildNode] exChildNode.id = [] := by rfl
  have hct : exChildNode.type = some "node" := rfl
  have hgg : recalcGroupNode [exGroupNode, exChildNode] exGroupNode = exGroupNode := by
    simp only [recalcGroupNode, hchg, List.foldl_nil]
    norm_num [exGroupNode, exChildNode]
  have hgc : recalcGroupNode [exGroupNode, exChildNode] exChildNode = exChildNode := by
    simp [recalcGroupNode, hct, hne]
  have hsg : recalcGroupNodeSpec [exGroupNode, exChildNode] exGroupNode
      = { exGroupNode with y := -60 } := by
    simp only [recalcGroupNodeSpec, hchg, List.foldl_nil]
    norm_num [exGroupNode, exChildNode]
  have hsc : recalcGroupNodeSpec [exGroupNode, exChildNode] exChildNode = exChildNode := by
    simp [recalcGroupNodeSpec, hct, hne]
  have h1 : recalculateGroupBounds [exGroupNode, exChildNode]
      = [exGroupNode, exChildNode] := by
    simp [recalculateGroupBounds, hgg, hgc]
  have h2 : recomputeGroupBoundsSpec [exGroupNode, exChildNode]
      = [{ exGroupNode with y := -60 }, exChildNode] := by
    simp [recomputeGroupBoundsSpec, hsg, hsc]
  refine ⟨h1, h2, ?_⟩
  rw [h1, h2]
  simp [exGroupNode]
  try norm_num

/-- C4 (amended): for every group with at least one child,
`recalculateGroupBounds` sets the group's box to the union bounding box of
its children expanded by padding 30 on all sides plus a title-bar offset 40
on the top edge and height, but skips the write when the new `x`, `width`
and `height` each differ from the stored values by less than 1 unit — the
`y` coordinate is not part of the stability test; non-group nodes and
childless groups are returned unchanged. -/
theorem C4_group_bounds_amended (nodes : List MindMapNode) (node : MindMapNode)
    (mnX mnY mxX mxY : ℚ)
    (hgroup : node.type = some "group")
    (hminX : IsLeast {q : ℚ | ∃ c ∈ childrenOf nodes node.id, c.x = q} mnX)
    (hminY : IsLeast {q : ℚ | ∃ c ∈ childrenOf nodes node.id, c.y = q} mnY)
    (hmaxX : IsGreatest {q : ℚ | ∃ c ∈ childrenOf nodes node.id, c.x + c.width = q} mxX)
    (hmaxY : IsGreatest {q : ℚ | ∃ c ∈ childrenOf nodes node.id, c.y + c.height = q} mxY) :
    recalculateGroupBounds nodes = nodes.map (recalcGroupNode nodes)
  ∧ (∀ m : MindMapNode, m.type ≠ some "group" → recalcGroupNode nodes m = m)
  ∧ (∀ m : MindMapNode, childrenOf nodes m.id = [] → recalcGroupNode nodes m = m)
  ∧ recalcGroupNode nodes node =
      (if |(mnX - 30) - node.x| < 1 ∧ |((mxX - mnX) + 60) - node.width| < 1
          ∧ |((mxY - mnY) + 100) - node.height| < 1
       then node
       else { node with x := mnX - 30, y := mnY - 70,
                        width := (mxX - mnX) + 60, height := (mxY - mnY) + 100 }) := by
  refine ⟨rfl, ?_, ?_, ?_⟩
  · intro m hm
    simp [recalcGroupNode, hm]
  · intro m hm
    by_cases ht : m.type = some "group" <;> simp [recalcGroupNode, ht, hm]
  · cases hc : childrenOf nodes node.id with
    | nil =>
        exfalso
        rcases hminX.1 with ⟨c, hcm, _⟩
        rw [hc] at hcm
        cases hcm
    | cons c cs =>
        rw [hc] at hminX hminY hmaxX hmaxY
        have e1 : cs.foldl (fun a n => min a n.x) c.x = mnX := by
          have h := foldl_min_isLeast_cons (fun n : MindMapNode => n.x) c cs
          simp only [] at h
          exact h.unique hminX
        have e2 : cs.foldl (fun a n => min a n.y) c.y = mnY := by
          have h := foldl_min_isLeast_cons (fun n : MindMapNode => n.y) c cs
          simp only [] at h
          exact h.unique hminY
        have e3 : cs.foldl (fun a n => max a (n.x + n.width)) (c.x + c.width) = mxX := by
          have h := foldl_max_isGreatest_cons (fun n : MindMapNode => n.x + n.width) c cs
          simp only [] at h
          exact h.unique hmaxX
        have e4 : cs.foldl (fun a n => max a (n.y + n.height)) (c.y + c.height) = mxY := by
          have h := foldl_max_isGreatest_cons (fun n : MindMapNode => n.y + n.height) c cs
          simp only [] at h
          exact h.unique hmaxY
        have h60 : (mxX - mnX) + (30 * 2 : ℚ) = (mxX - mnX) + 60 := by norm_num
        have h100 : (mxY - mnY) + (30 * 2 : ℚ) + 40 = (mxY - mnY) + 100 := by ring
        have h70 : mnY - 30 - (40 : ℚ) = mnY - 70 := by ring
        simp only [recalcGroupNode, hgroup, hc, eq_self_iff_true, if_true]
        rw [e1, e2, e3, e4, h60, h100, h70]

/-- Witness for C4 (amended) at the concrete scene `[exGroupNode,
exChildNode]`: the child's bounding box is `[0,100] × [10,110]`, the skip
condition holds on `x`, `width` and `height`, and the group is returned
unchanged even though its stored `y` is 60 units away from the recomputed
one. -/
theorem C4_group_bounds_amended_witness :
    recalcGroupNode [exGroupNode, exChildNode] exGroupNode =
      (if |((0 : ℚ) - 30) - exGroupNode.x| < 1
          ∧ |(((100 : ℚ) - 0) + 60) - exGroupNode.width| < 1
          ∧ |(((110 : ℚ) - 10) + 100) - exGroupNode.height| < 1
       then exGroupNode
       else { exGroupNode with
                x := (0 : ℚ) - 30
                y := (10 : ℚ) - 70
                width := ((100 : ℚ) - 0) + 60
                height := ((110 : ℚ) - 10) + 100 }) := by
  have hch : childrenOf [exGroupNode, exChildNode] exGroupNode.id = [exChildNode] := rfl
  have hx : IsLeast
      {q : ℚ | ∃ c ∈ childrenOf [exGroupNode, exChildNode] exGroupNode.id, c.x = q} 0 := by
    rw [hch]
    constructor
    · exact ⟨exChildNode, List.mem_singleton.mpr rfl, by norm_num [exChildNode]⟩
    · rintro b ⟨n, hn, rfl⟩
      rw [List.mem_singleton] at hn
      subst hn
      norm_num [exChildNode]
  have hy : IsLeast
      {q : ℚ | ∃ c ∈ childrenOf [exGroupNode, exChildNode] exGroupNode.id, c.y = q} 10 := by
    rw [hch]
    constructor
    · exact ⟨exChildNode, List.mem_singleton.mpr rfl, by norm_num [exChildNode]⟩
    · rintro b ⟨n, hn, rfl⟩
      rw [List.mem_singleton] at hn
      subst hn
      norm_num [exChildNode]
  have hX : IsGreatest
      {q : ℚ | ∃ c ∈ childrenOf [exGroupNode, exChildNode] exGroupNode.id,
        c.x + c.width = q} 100 := by
    rw [hch]
    constructor
    · exact ⟨exChildNode, List.mem_singleton.mpr rfl, by norm_num [exChildNode]⟩
    · rintro b ⟨n, hn, rfl⟩
      rw [List.mem_singleton] at hn
      subst hn
      norm_num [exChildNode]
  have hY : IsGreatest
      {q : ℚ | ∃ c ∈ childrenOf [exGroupNode, exChildNode] exGroupNode.id,
        c.y + c.height = q} 110 := by
    rw [hch]
    constructor
    · exact ⟨exChildNode, List.mem_singleton.mpr rfl, by norm_num [exChildNode]⟩
    · rintro b ⟨n, hn, rfl⟩
      rw [List.mem_singleton] at hn
      subst hn
      norm_num [exChildNode]
  exact (C4_group_bounds_amended [exGroupNode, exChildNode] exGroupNode 0 10 100 110
    rfl hx hy hX hY).2.2.2

/-- `applyLayout` only moves a node: id, type and parentId are unchanged. -/
theorem applyLayout_fields (lm : List (String × Position)) (n : MindMapNode) :
    (applyLayout lm n).id = n.id
  ∧ (applyLayout lm n).type = n.type
  ∧ (applyLayout lm n).parentId = n.parentId := by
  unfold applyLayout
  cases lm.lookup n.id <;> exact ⟨rfl, rfl, rfl⟩

/-- `assignGroupParent` keeps id and type, and either keeps the parent or
sets it to the fresh group id; for a selected node it always sets it. -/
theorem assignGroupParent_fields (sel : List String) (gid : String) (n : MindMapNode) :
    (assignGroupParent sel gid n).id = n.id
  ∧ (assignGroupParent sel gid n).type = n.type
  ∧ ((assignGroupParent sel gid n).parentId = n.parentId
      ∨ (assignGroupParent sel gid n).parentId = some gid)
  ∧ (sel.contains n.id = true → (assignGroupParent sel gid n).parentId = some gid) := by
  unfold assignGroupParent
  split_ifs with h
  · exact ⟨rfl, rfl, Or.inr rfl, fun _ => rfl⟩
  · exact ⟨rfl, rfl, Or.inl rfl, fun hc => absurd hc h⟩

/-- Membership is preserved by the stable insertion of `sortByYX`. -/
theorem mem_insertByYX (a b : MindMapNode) (l : List MindMapNode) :
    a ∈ insertByYX b l ↔ a = b ∨ a ∈ l := by
  induction l with
  | nil => simp [insertByYX]
  | cons c cs ih =>
      unfold insertByYX
      split_ifs with h
      · simp only [List.mem_cons, ih]
        tauto
      · simp only [List.mem_cons]

/-- `sortByYX` is a permutation in the membership sense. -/
theorem mem_sortByYX (a : MindMapNode) (l : List MindMapNode) :
    a ∈ sortByYX l ↔ a ∈ l := by
  induction l with
  | nil => simp [sortByYX]
  | cons c cs ih =>
      unfold sortByYX
      rw [mem_insertByYX]
      simp [ih]

/-- Every node in the result of `handleCreateGroup` is either an input node
with at most its position changed and its `parentId` either kept or set to
the fresh group id, or the appended group node itself (id `gid`, no parent). -/
theorem handleCreateGroup_nodes_chars (s : AppState) (gid : String) :
    ∀ n ∈ (handleCreateGroup s gid).nodes,
      (∃ m ∈ s.nodes, n.id = m.id ∧ (n.parentId = m.parentId ∨ n.parentId = some gid))
      ∨ (n.id = gid ∧ n.parentId = none) := by
  intro n hn
  unfold handleCreateGroup at hn
  by_cases h0 : s.selectedNodeIds = []
  · rw [if_pos h0] at hn
    exact Or.inl ⟨n, hn, rfl, Or.inl rfl⟩
  · rw [if_neg h0] at hn
    simp only [saveHistory] at hn
    cases hsort : sortByYX (List.filter
        (fun nd => s.selectedNodeIds.contains nd.id) s.nodes) with
    | nil =>
        rw [hsort] at hn
        exact Or.inl ⟨n, hn, rfl, Or.inl rfl⟩
    | cons c cs =>
        rw [hsort] at hn
        simp only [List.mem_append, List.mem_map, List.mem_singleton] at hn
        rcases hn with ⟨m, ⟨m', hm', hf1⟩, hf2⟩ | hn
        · left
          subst hf1
          subst hf2
          obtain ⟨ha1, _, ha3⟩ := applyLayout_fields
            (((c :: cs).foldl (layoutStep (ceilSqrt (c :: cs).length)
                (cs.foldl (fun a n => min a n.x) c.x)
                (cs.foldl (fun a n => min a n.y) c.y))
              ((⟨0, 0, 0, []⟩ : LayoutState), 0)).1.layout) m'
          obtain ⟨hb1, _, hb3, _⟩ := assignGroupParent_fields s.selectedNodeIds gid
            (applyLayout (((c :: cs).foldl (layoutStep (ceilSqrt (c :: cs).length)
                (cs.foldl (fun a n => min a n.x) c.x)
                (cs.foldl (fun a n => min a n.y) c.y))
              ((⟨0, 0, 0, []⟩ : LayoutState), 0)).1.layout) m')
          refine ⟨m', hm', by rw [hb1, ha1], ?_⟩
          rcases hb3 with hb3 | hb3
          · exact Or.inl (by rw [hb3, ha3])
          · exact Or.inr hb3
        · right
          subst hn
          exact ⟨rfl, rfl⟩

/-- For a selected node `m`, `handleCreateGroup` keeps a node with `m`'s id
and type but `parentId` set to the fresh group id, and appends a group node
with the fresh id, type `group` and no parent. -/
theorem handleCreateGroup_assigns (s : AppState) (gid : String) (m : MindMapNode)
    (hm : m ∈ s.nodes) (hsel : s.selectedNodeIds.contains m.id = true) :
    (∃ n ∈ (handleCreateGroup s gid).nodes,
        n.id = m.id ∧ n.parentId = some gid ∧ n.type = m.type)
  ∧ (∃ g ∈ (handleCreateGroup s gid).nodes,
        g.id = gid ∧ g.type = some "group" ∧ g.parentId = none) := by
  have h0 : s.selectedNodeIds ≠ [] := by
    intro h
    rw [h] at hsel
    cases hsel
  have hmf : m ∈ (saveHistory s).nodes.filter
      (fun n => (saveHistory s).selectedNodeIds.contains n.id) :=
    List.mem_filter.mpr ⟨hm, hsel⟩
  unfold handleCreateGroup
  rw [if_neg h0]
  simp only [saveHistory] at hmf ⊢
  cases hsort : sortByYX (List.filter
      (fun nd => s.selectedNodeIds.contains nd.id) s.nodes) with
  | nil =>
      exfalso
      have := (mem_sortByYX m _).mpr hmf
      rw [hsort] at this
      cases this
  | cons c cs =>
      set lm := ((c :: cs).foldl (layoutStep (ceilSqrt (c :: cs).length)
          (cs.foldl (fun a n => min a n.x) c.x)
          (cs.foldl (fun a n => min a n.y) c.y))
        ((⟨0, 0, 0, []⟩ : LayoutState), 0)).1.layout with hlm
      constructor
      · obtain ⟨ha1, ha2, _⟩ := applyLayout_fields lm m
        obtain ⟨hb1, hb2, _, hb4⟩ := assignGroupParent_fields s.selectedNodeIds gid
          (applyLayout lm m)
        refine ⟨assignGroupParent s.selectedNodeIds gid (applyLayout lm m),
          List.mem_append.mpr (Or.inl (List.mem_map.mpr
            ⟨applyLayout lm m, List.mem_map.mpr ⟨m, hm, rfl⟩, rfl⟩)), ?_, ?_, ?_⟩
        · rw [hb1, ha1]
        · exact hb4 (by rw [ha1]; exact hsel)
        · rw [hb2, ha2]
      · refine ⟨_, List.mem_append.mpr (Or.inr (List.mem_singleton.mpr rfl)), rfl, rfl, rfl⟩

/-- C8 counterexample: with a group node (`g1`) and a standard node both
selected, `handleCreateGroup` gives the selected group `parentId = "G2"`,
the id of the freshly created group node — a group node acquires a
`parentId` referring to a group, refuting the claim. -/
theorem C8_group_can_get_group_parent_counterexample :
    exGroupA.type = some "group"
  ∧ (∃ n ∈ (handleCreateGroup exState8 "G2").nodes,
        n.id = exGroupA.id ∧ n.parentId = some "G2" ∧ n.type = some "group")
  ∧ (∃ g ∈ (handleCreateGroup exState8 "G2").nodes,
        g.id = "G2" ∧ g.type = some "group" ∧ g.parentId = none) := by
  have h := handleCreateGroup_assigns exState8 "G2" exGroupA (by simp [exState8])
    (by simp [exState8, exGroupA])
  refine ⟨rfl, ?_, h.2⟩
  obtain ⟨n, hn, h1, h2, h3⟩ := h.1
  exact ⟨n, hn, h1, h2, by rw [h3]; exact rfl⟩

/-- C8 (amended): no reachable operation gives a node its own id as
`parentId` (given fresh generated ids), and parent reconciliation and AI
expansion never give a group node a `parentId`: reconciliation returns group
nodes unchanged and otherwise assigns only the id of a *different* group (or
clears it), and AI expansion only appends non-group children of the source
node.  Group creation, however, assigns the fresh group id as `parentId` to
*every* selected node — including a selected group — so a group can acquire
a `parentId` referring to a (fresh) group, though never to itself. -/
theorem C8_parent_assignment_amended (cn : List MindMapNode) (sid : Option String)
    (node : MindMapNode) (s : AppState) (gid : String) (srcNode : MindMapNode)
    (sugg : List AiResult) (nids eids : List String) (poss : List Position) (dark : Bool)
    (hfresh : gid ∉ s.nodes.map (fun n => n.id)) :
    updateParentIds cn sid = cn.map (assignParent cn sid)
  ∧ (node.type = some "group" → assignParent cn sid node = node)
  ∧ (assignParent cn sid node = node
      ∨ (assignParent cn sid node).parentId = none
      ∨ ∃ g ∈ cn, g.type = some "group" ∧ g.id ≠ node.id
          ∧ assignParent cn sid node = { node with parentId := some g.id })
  ∧ (∀ n ∈ (aiExpandCommit s srcNode sugg nids eids poss dark).nodes,
        n ∈ s.nodes ∨ (n.type = some "node" ∧ n.parentId = some srcNode.id))
  ∧ (∀ n ∈ (handleCreateGroup s gid).nodes,
        (n.id = gid → n.parentId = none)
      ∧ (n.parentId = some n.id → ∃ m ∈ s.nodes, m.id = n.id ∧ m.parentId = some m.id)) := by
  have hPL : ∀ nd : MindMapNode,
      (parentLookup cn nd).parentId = none
      ∨ ∃ g ∈ cn, g.type = some "group" ∧ g.id ≠ nd.id
          ∧ parentLookup cn nd = { nd with parentId := some g.id } := by
    intro nd
    unfold parentLookup
    cases hf : groupHit cn nd with
    | none => exact Or.inl rfl
    | some tg =>
        right
        have hpred := List.find?_some hf
        simp only [Bool.and_eq_true, beq_iff_eq, bne_iff_ne, decide_eq_true_eq] at hpred
        exact ⟨tg, List.mem_of_find?_eq_some hf, hpred.1.1.1.1.1, hpred.1.1.1.1.2, rfl⟩
  refine ⟨rfl, ?_, ?_, ?_, ?_⟩
  · intro h
    simp [assignParent, h]
  · by_cases ht : node.type = some "group"
    · left
      simp [assignParent, ht]
    · cases sid with
      | none =>
          have ha : assignParent cn none node = parentLookup cn node := by
            simp [assignParent, ht]
          rw [ha]
          exact Or.inr (hPL node)
      | some sid' =>
          by_cases hid : node.id = sid'
          · have ha : assignParent cn (some sid') node = parentLookup cn node := by
              simp [assignParent, ht, hid]
            rw [ha]
            exact Or.inr (hPL node)
          · left
            simp [assignParent, ht, hid]
  · intro n hn
    unfold aiExpandCommit saveHistory at hn
    simp only [List.mem_append, List.mem_map] at hn
    rcases hn with hn | ⟨p, hp, rfl⟩
    · exact Or.inl hn
    · exact Or.inr ⟨rfl, rfl⟩
  · intro n hn
    rcases handleCreateGroup_nodes_chars s gid n hn with ⟨m, hm, hid, hpar⟩ | ⟨hid, hpar⟩
    · constructor
      · intro hng
        exfalso
        exact hfresh (List.mem_map.mpr ⟨m, hm, (hng ▸ hid).symm⟩)
      · intro hself
        rcases hpar with hpar | hpar
        · exact ⟨m, hm, hid.symm, by rw [← hid, ← hpar, hself]⟩
        · exfalso
          rw [hpar] at hself
          have : gid = n.id := by injection hself
          exact hfresh (List.mem_map.mpr ⟨m, hm, (this ▸ hid).symm⟩)
    · constructor
      · intro _
        exact hpar
      · intro hself
        rw [hpar] at hself
        cases hself

/-- C9 counterexample: the `straight` edge from `exSrc9`'s bottom handle
(50, 50) to `exTgt9`'s left handle (50, 200) points straight down, so the
code's `atan2` of the segment yields 90 degrees at the end arrow, while the
spec's handle lookup table gives 0 degrees for a `left` handle — for
`straight` edges the arrow angle is computed from the actual segment
direction, not from the lookup table. -/
theorem C9_straight_arrow_not_lookup_counterexample :
    renderArrowAngle exStraightEdge exSrc9 exTgt9 .atEnd = 90
  ∧ ((arrowAngleSpecTable exStraightEdge .atEnd : ℚ) : ℝ) = 0
  ∧ renderArrowAngle exStraightEdge exSrc9 exTgt9 .atEnd
      ≠ ((arrowAngleSpecTable exStraightEdge .atEnd : ℚ) : ℝ) := by
  have h2 : atan2 150 0 = Real.pi / 2 := by
    unfold atan2
    norm_num
  have h1 : renderArrowAngle exStraightEdge exSrc9 exTgt9 .atEnd
      = atan2 150 0 * (180 / Real.pi) := by
    simp only [renderArrowAngle, exStraightEdge, exSrc9, exTgt9, effBreakpoints,
      getHandlePosition, List.getLast?]
    norm_num
  have h90 : renderArrowAngle exStraightEdge exSrc9 exTgt9 .atEnd = 90 := by
    rw [h1, h2]
    have hpi := Real.pi_ne_zero
    field_simp
    ring
  have hspec : ((arrowAngleSpecTable exStraightEdge .atEnd : ℚ) : ℝ) = 0 := by
    norm_num [arrowAngleSpecTable, stepArrowAngle, exStraightEdge]
  refine ⟨h90, hspec, ?_⟩
  rw [h90, hspec]
  norm_num

/-- C9 (amended): for `step` edges the arrow angle at each endpoint is taken
directly from that endpoint handle's fixed outward axis via the lookup table
(in particular it does not depend on the node boxes at all), while for every
`straight` edge the angle is the `atan2` direction of the adjacent polyline
segment — from the start handle point to the first breakpoint (or the end
handle point when there is none), plus 180 degrees, at the start, and from
the last breakpoint (or the start handle point) to the end handle point at
the end — not the lookup table. -/
theorem C9_arrow_angle_amended (edge : MindMapEdge) (src tgt src' tgt' : MindMapNode)
    (pos : ArrowEnd) :
    (edge.type = some .step →
        renderArrowAngle edge src tgt pos = ((arrowAngleSpecTable edge pos : ℚ) : ℝ)
      ∧ renderArrowAngle edge src tgt pos = renderArrowAngle edge src' tgt' pos)
  ∧ (edge.type = some .straight →
        renderArrowAngle edge src tgt .atStart =
          atan2 ((((effBreakpoints edge).head?.getD
                      (getHandlePosition tgt edge.toHandle)).y : ℝ)
                  - ((getHandlePosition src edge.fromHandle).y : ℝ))
                ((((effBreakpoints edge).head?.getD
                      (getHandlePosition tgt edge.toHandle)).x : ℝ)
                  - ((getHandlePosition src edge.fromHandle).x : ℝ))
            * (180 / Real.pi) + 180
      ∧ renderArrowAngle edge src tgt .atEnd =
          atan2 (((getHandlePosition tgt edge.toHandle).y : ℝ)
                  - (((effBreakpoints edge).getLast?.getD
                        (getHandlePosition src edge.fromHandle)).y : ℝ))
                (((getHandlePosition tgt edge.toHandle).x : ℝ)
                  - (((effBreakpoints edge).getLast?.getD
                        (getHandlePosition src edge.fromHandle)).x : ℝ))
            * (180 / Real.pi)) := by
  constructor
  · intro h
    cases pos <;> simp [renderArrowAngle, arrowAngleSpecTable, h]
  · intro h
    constructor
    · cases hb : effBreakpoints edge with
      | nil => simp [renderArrowAngle, h, hb]
      | cons b bs => simp [renderArrowAngle, h, hb]
    · cases hb : effBreakpoints edge with
      | nil => simp [renderArrowAngle, h, hb]
      | cons b bs =>
          cases hgl : (b :: bs).getLast? with
          | none =>
              exfalso
              have hne : (b :: bs).getLast? ≠ none := by
                clear hb hgl
                induction bs generalizing b with
                | nil => simp [List.getLast?]
                | cons c cs ih =>
                    rw [List.getLast?_cons_cons]
                    exact ih c
              exact hne hgl
          | some x => simp [renderArrowAngle, h, hb, hgl]

/-- Witness for C9 (amended): the step instance at the concrete edge
`exStepEdge`, and the straight instance at both the breakpointless edge
`exStraightEdge` and the one-breakpoint edge `exStraightEdgeBp`, with every
hypothesis discharged definitionally. -/
theorem C9_arrow_angle_amended_witness :
    (renderArrowAngle exStepEdge exSrc9 exTgt9 .atEnd
        = ((arrowAngleSpecTable exStepEdge .atEnd : ℚ) : ℝ)
      ∧ renderArrowAngle exStepEdge exSrc9 exTgt9 .atEnd
        = renderArrowAngle exStepEdge exTgt9 exSrc9 .atEnd)
  ∧ (renderArrowAngle exStraightEdge exSrc9 exTgt9 .atStart =
        atan2 ((((effBreakpoints exStraightEdge).head?.getD
                    (getHandlePosition exTgt9 exStraightEdge.toHandle)).y : ℝ)
                - ((getHandlePosition exSrc9 exStraightEdge.fromHandle).y : ℝ))
              ((((effBreakpoints exStraightEdge).head?.getD
                    (getHandlePosition exTgt9 exStraightEdge.toHandle)).x : ℝ)
                - ((getHandlePosition exSrc9 exStraightEdge.fromHandle).x : ℝ))
          * (180 / Real.pi) + 180
      ∧ renderArrowAngle exStraightEdge exSrc9 exTgt9 .atEnd =
        atan2 (((getHandlePosition exTgt9 exStraightEdge.toHandle).y : ℝ)
                - (((effBreakpoints exStraightEdge).getLast?.getD
                      (getHandlePosition exSrc9 exStraightEdge.fromHandle)).y : ℝ))
              (((getHandlePosition exTgt9 exStraightEdge.toHandle).x : ℝ)
                - (((effBreakpoints exStraightEdge).getLast?.getD
                      (getHandlePosition exSrc9 exStraightEdge.fromHandle)).x : ℝ))
          * (180 / Real.pi))
  ∧ (renderArrowAngle exStraightEdgeBp exSrc9 exTgt9 .atStart =
        atan2 ((((effBreakpoints exStraightEdgeBp).head?.getD
                    (getHandlePosition exTgt9 exStraightEdgeBp.toHandle)).y : ℝ)
                - ((getHandlePosition exSrc9 exStraightEdgeBp.fromHandle).y : ℝ))
              ((((effBreakpoints exStraightEdgeBp).head?.getD
                    (getHandlePosition exTgt9 exStraightEdgeBp.toHandle)).x : ℝ)
                - ((getHandlePosition exSrc9 exStraightEdgeBp.fromHandle).x : ℝ))
          * (180 / Real.pi) + 180
      ∧ renderArrowAngle exStraightEdgeBp exSrc9 exTgt9 .atEnd =
        atan2 (((getHandlePosition exTgt9 exStraightEdgeBp.toHandle).y : ℝ)
                - (((effBreakpoints exStraightEdgeBp).getLast?.getD
                      (getHandlePosition exSrc9 exStraightEdgeBp.fromHandle)).y : ℝ))
              (((getHandlePosition exTgt9 exStraightEdgeBp.toHandle).x : ℝ)
                - (((effBreakpoints exStraightEdgeBp).getLast?.getD
                      (getHandlePosition exSrc9 exStraightEdgeBp.fromHandle)).x : ℝ))
          * (180 / Real.pi)) :=
  ⟨(C9_arrow_angle_amended exStepEdge exSrc9 exTgt9 exTgt9 exSrc9 .atEnd).1 rfl,
   (C9_arrow_angle_amended exStraightEdge exSrc9 exTgt9 exTgt9 exSrc9 .atEnd).2 rfl,
   (C9_arrow_angle_amended exStraightEdgeBp exSrc9 exTgt9 exTgt9 exSrc9 .atEnd).2 rfl⟩

/-- Witness for C8 (amended) at the concrete two-node scene with the fresh
group id `"Z"`. -/
theorem C8_parent_assignment_amended_witness :
    updateParentIds [exNode1] none = [exNode1].map (assignParent [exNode1] none)
  ∧ (exNode1.type = some "group" → assignParent [exNode1] none exNode1 = exNode1)
  ∧ (assignParent [exNode1] none exNode1 = exNode1
      ∨ (assignParent [exNode1] none exNode1).parentId = none
      ∨ ∃ g ∈ [exNode1], g.type = some "group" ∧ g.id ≠ exNode1.id
          ∧ assignParent [exNode1] none exNode1 = { exNode1 with parentId := some g.id })
  ∧ (∀ n ∈ (aiExpandCommit exState8 exNodeA [] [] [] [] false).nodes,
        n ∈ exState8.nodes ∨ (n.type = some "node" ∧ n.parentId = some exNodeA.id))
  ∧ (∀ n ∈ (handleCreateGroup exState8 "Z").nodes,
        (n.id = "Z" → n.parentId = none)
      ∧ (n.parentId = some n.id → ∃ m ∈ exState8.nodes, m.id = n.id ∧ m.parentId = some m.id)) :=
  C8_parent_assignment_amended [exNode1] none exNode1 exState8 "Z" exNodeA [] [] [] [] false
    (by simp [exState8, exGroupA, exNodeA])

/-- The squared distance is non-negative. -/
theorem distSq_nonneg (p q : Position) : 0 ≤ distSq p q :=
  add_nonneg (sq_nonneg _) (sq_nonneg _)

/-- Justification of the square-root embedding: for a non-negative squared
distance, the source's comparison `Math.sqrt dSq < threshold` is exactly the
rational test `withinThreshold`. -/
theorem withinThreshold_iff_sqrt (dSq t : ℚ) (_h : 0 ≤ dSq) :
    withinThreshold dSq t = true ↔ Real.sqrt (dSq : ℝ) < (t : ℝ) := by
  unfold withinThreshold
  simp only [Bool.and_eq_true, decide_eq_true_eq]
  constructor
  · rintro ⟨ht, hd⟩
    have ht' : (0 : ℝ) < (t : ℝ) := by exact_mod_cast ht
    rw [Real.sqrt_lt' ht']
    have hlt : ((dSq : ℝ)) < (t : ℝ) * (t : ℝ) := by exact_mod_cast hd
    calc ((dSq : ℝ)) < (t : ℝ) * (t : ℝ) := hlt
      _ = (t : ℝ) ^ 2 := by ring
  · intro hs
    have ht' : (0 : ℝ) < (t : ℝ) := lt_of_le_of_lt (Real.sqrt_nonneg _) hs
    have ht : 0 < t := by exact_mod_cast ht'
    refine ⟨ht, ?_⟩
    have hsq := (Real.sqrt_lt' ht').mp hs
    have h2 : ((dSq : ℝ)) < (t : ℝ) * (t : ℝ) := by
      calc ((dSq : ℝ)) < (t : ℝ) ^ 2 := hsq
        _ = (t : ℝ) * (t : ℝ) := by ring
    exact_mod_cast h2

/-- Justification of the square-root embedding for the running-minimum
comparison: square roots of non-negative rationals compare like the
rationals themselves. -/
theorem sqrt_cmp_iff_rat (a b : ℚ) (ha : 0 ≤ a) :
    Real.sqrt (a : ℝ) < Real.sqrt (b : ℝ) ↔ a < b := by
  rw [Real.sqrt_lt_sqrt_iff (by exact_mod_cast ha)]
  exact ⟨fun h => by exact_mod_cast h, fun h => by exact_mod_cast h⟩

/-- One probe of `getNearestHandle`'s inner loop: outside the threshold the
candidate is unchanged; inside it, the result is a candidate at least as
close as both the probed handle and any previous candidate, and is either
the probed handle or the previous candidate. -/
theorem considerHandle_cases (point : Position) (t : ℚ) (acc : Option Closest)
    (nh : MindMapNode × HandlePos) :
    (withinThreshold (pairDist point nh) t = false →
        considerHandle point t acc nh = acc)
  ∧ (withinThreshold (pairDist point nh) t = true →
      ∃ c', considerHandle point t acc nh = some c'
        ∧ ((c'.nodeId = nh.1.id ∧ c'.handle = nh.2 ∧ c'.dist = pairDist point nh)
            ∨ acc = some c')
        ∧ c'.dist ≤ pairDist point nh
        ∧ (∀ c0, acc = some c0 → c'.dist ≤ c0.dist)) := by
  unfold considerHandle pairDist
  constructor
  · intro h
    simp [h]
  · intro h
    simp only [h, if_true]
    cases acc with
    | none =>
        exact ⟨⟨nh.1.id, nh.2, distSq point (getHandlePosition nh.1 nh.2)⟩, rfl,
          Or.inl ⟨rfl, rfl, rfl⟩, le_refl _, by simp⟩
    | some c0 =>
        by_cases hlt : distSq point (getHandlePosition nh.1 nh.2) < c0.dist
        · refine ⟨⟨nh.1.id, nh.2, distSq point (getHandlePosition nh.1 nh.2)⟩,
            by simp [hlt], Or.inl ⟨rfl, rfl, rfl⟩, le_refl _, ?_⟩
          intro c1 h1
          injection h1 with h1
          subst h1
          exact le_of_lt hlt
        · refine ⟨c0, by simp [hlt], Or.inr rfl, le_of_not_lt hlt, ?_⟩
          intro c1 h1
          injection h1 with h1
          subst h1
          exact le_refl _

/-- The selection invariant of the candidate fold of `getNearestHandle`:
the fold returns `none` exactly when the accumulator was `none` and no
listed candidate is within the threshold; a returned candidate comes from
the accumulator or the list (within the threshold in the latter case), and
is at least as close as the accumulator and every in-threshold candidate. -/
theorem foldl_consider_spec (point : Position) (t : ℚ) :
    ∀ (l : List (MindMapNode × HandlePos)) (acc : Option Closest),
      (l.foldl (considerHandle point t) acc = none ↔
        acc = none ∧ ∀ nh ∈ l, withinThreshold (pairDist point nh) t = false)
    ∧ (∀ c : Closest, l.foldl (considerHandle point t) acc = some c →
        ((acc = some c
          ∨ ∃ nh ∈ l, c.nodeId = nh.1.id ∧ c.handle = nh.2 ∧ c.dist = pairDist point nh
              ∧ withinThreshold (pairDist point nh) t = true)
        ∧ (∀ c0 : Closest, acc = some c0 → c.dist ≤ c0.dist)
        ∧ (∀ nh ∈ l, withinThreshold (pairDist point nh) t = true →
            c.dist ≤ pairDist point nh))) := by
  intro l
  induction l with
  | nil =>
      intro acc
      constructor
      · simp
      · intro c hc
        simp only [List.foldl_nil] at hc
        refine ⟨Or.inl hc, ?_, by simp⟩
        intro c0 h0
        rw [hc] at h0
        injection h0 with h0
        rw [h0]
  | cons nh rest ih =>
      intro acc
      simp only [List.foldl_cons]
      obtain ⟨hfalse, htrue⟩ := considerHandle_cases point t acc nh
      cases hw : withinThreshold (pairDist point nh) t with
      | false =>
          rw [hfalse hw]
          obtain ⟨ihnone, ihsome⟩ := ih acc
          constructor
          · rw [ihnone]
            constructor
            · rintro ⟨h1, h2⟩
              refine ⟨h1, ?_⟩
              intro nh' hm
              rcases List.mem_cons.mp hm with rfl | hm'
              · exact hw
              · exact h2 nh' hm'
            · rintro ⟨h1, h2⟩
              exact ⟨h1, fun nh' hm => h2 nh' (List.mem_cons_of_mem _ hm)⟩
          · intro c hc
            obtain ⟨hsrc2, hacc2, hmin2⟩ := ihsome c hc
            refine ⟨?_, hacc2, ?_⟩
            · rcases hsrc2 with h | ⟨nh', hnh', hprop⟩
              · exact Or.inl h
              · exact Or.inr ⟨nh', List.mem_cons_of_mem _ hnh', hprop⟩
            · intro nh' hnh' hw'
              rcases List.mem_cons.mp hnh' with rfl | hmem
              · rw [hw] at hw'
                cases hw'
              · exact hmin2 nh' hmem hw'
      | true =>
          obtain ⟨c', heq, hsrc, hle, hmin⟩ := htrue hw
          rw [heq]
          obtain ⟨ihnone, ihsome⟩ := ih (some c')
          constructor
          · rw [ihnone]
            constructor
            · rintro ⟨h1, _⟩
              cases h1
            · rintro ⟨_, hall⟩
              have hcon := hall nh (List.mem_cons_self _ _)
              rw [hw] at hcon
              cases hcon
          · intro c hc
            obtain ⟨hsrc2, hacc2, hmin2⟩ := ihsome c hc
            refine ⟨?_, ?_, ?_⟩
            · rcases hsrc2 with h | ⟨nh', hnh', hprop⟩
              · injection h with h
                subst h
                rcases hsrc with h' | h'
                · exact Or.inr ⟨nh, List.mem_cons_self _ _, h'.1, h'.2.1, h'.2.2, hw⟩
                · exact Or.inl h'
              · exact Or.inr ⟨nh', List.mem_cons_of_mem _ hnh', hprop⟩
            · intro c0 h0
              exact le_trans (hacc2 c' rfl) (hmin c0 h0)
            · intro nh' hnh' hw'
              rcases List.mem_cons.mp hnh' with rfl | hmem
              · exact le_trans (hacc2 c' rfl) hle
              · exact hmin2 nh' hmem hw'

/-- The inner handle loop of `getNearestHandle` is the candidate fold over
that node's four handles. -/
theorem scanHandles_eq_foldl_pairs (point : Position) (t : ℚ) (node : MindMapNode)
    (acc : Option Closest) :
    scanHandles point t node acc
      = (handlesOrder.map (fun h => (node, h))).foldl (considerHandle point t) acc := by
  unfold scanHandles
  rw [List.foldl_map]

/-- The nested node/handle loops of `getNearestHandle` equal one fold over
the flattened candidate list. -/
theorem aux_eq_foldl_pairs (point : Position) (t : ℚ) (ex : String) :
    ∀ (nodes : List MindMapNode) (acc : Option Closest),
      nodes.foldl (fun closest node =>
          if node.id = ex then closest else scanHandles point t node closest) acc
        = (candidatePairs nodes ex).foldl (considerHandle point t) acc := by
  intro nodes
  induction nodes with
  | nil =>
      intro acc
      rfl
  | cons n ns ih =>
      intro acc
      simp only [List.foldl_cons, candidatePairs, List.foldl_append]
      by_cases h : n.id = ex
      · simp only [if_pos h, List.foldl_nil]
        exact ih acc
      · simp only [if_neg h]
        rw [scanHandles_eq_foldl_pairs]
        exact ih _

/-- Every handle side occurs in the iteration order. -/
theorem handlePos_mem_handlesOrder (h : HandlePos) : h ∈ handlesOrder := by
  cases h <;> simp [handlesOrder]

/-- Candidate membership: a (node, handle) pair is examined exactly when the
node is listed and not excluded. -/
theorem mem_candidatePairs (nodes : List MindMapNode) (ex : String)
    (nh : MindMapNode × HandlePos) :
    nh ∈ candidatePairs nodes ex ↔ nh.1 ∈ nodes ∧ nh.1.id ≠ ex := by
  induction nodes with
  | nil => simp [candidatePairs]
  | cons n ns ih =>
      unfold candidatePairs
      by_cases h : n.id = ex
      · rw [if_pos h]
        simp only [List.nil_append, ih, List.mem_cons]
        constructor
        · rintro ⟨hm, hne⟩
          exact ⟨Or.inr hm, hne⟩
        · rintro ⟨hm | hm, hne⟩
          · exact absurd (hm ▸ h) hne
          · exact ⟨hm, hne⟩
      · rw [if_neg h]
        simp only [List.mem_append, List.mem_map, ih, List.mem_cons]
        constructor
        · rintro (⟨hh, _, rfl⟩ | ⟨hm, hne⟩)
          · exact ⟨Or.inl rfl, h⟩
          · exact ⟨Or.inr hm, hne⟩
        · rintro ⟨hm | hm, hne⟩
          · left
            refine ⟨nh.2, handlePos_mem_handlesOrder _, ?_⟩
            obtain ⟨a, b⟩ := nh
            cases hm
            rfl
          · right
            exact ⟨hm, hne⟩

/-- C6: `getNearestHandle` scans all four handles of every node except the
excluded one; it returns `none` exactly when no handle of a non-excluded
node is within the threshold, and otherwise returns a handle of a
non-excluded node within the threshold whose distance to the point is
minimal among all in-threshold handles of non-excluded nodes; in particular
it never returns a handle of the excluded node id.  (`withinThreshold d t`
embeds the source's `Math.sqrt d < t`; see `withinThreshold_iff_sqrt`.) -/
theorem C6_nearestHandle_spec (point : Position) (nodes : List MindMapNode)
    (excludeNodeId : String) (t : ℚ) :
    (getNearestHandle point nodes excludeNodeId t = none ↔
      ∀ n ∈ nodes, n.id ≠ excludeNodeId → ∀ h : HandlePos,
        withinThreshold (distSq point (getHandlePosition n h)) t = false)
  ∧ (∀ (nid : String) (h : HandlePos),
      getNearestHandle point nodes excludeNodeId t = some (nid, h) →
        nid ≠ excludeNodeId
      ∧ ∃ n ∈ nodes, n.id = nid
          ∧ withinThreshold (distSq point (getHandlePosition n h)) t = true
          ∧ ∀ n' ∈ nodes, n'.id ≠ excludeNodeId → ∀ h' : HandlePos,
              withinThreshold (distSq point (getHandlePosition n' h')) t = true →
              distSq point (getHandlePosition n h)
                ≤ distSq point (getHandlePosition n' h')) := by
  have haux : getNearestHandleAux point nodes excludeNodeId t
      = (candidatePairs nodes excludeNodeId).foldl (considerHandle point t) none := by
    unfold getNearestHandleAux
    exact aux_eq_foldl_pairs point t excludeNodeId nodes none
  obtain ⟨hnone, hsome⟩ :=
    foldl_consider_spec point t (candidatePairs nodes excludeNodeId) none
  constructor
  · unfold getNearestHandle
    rw [haux]
    cases hfold : (candidatePairs nodes excludeNodeId).foldl (considerHandle point t) none with
    | none =>
        simp only [true_iff]
        obtain ⟨_, hall⟩ := hnone.mp hfold
        intro n hn hne h
        exact hall (n, h) ((mem_candidatePairs nodes excludeNodeId (n, h)).mpr ⟨hn, hne⟩)
    | some c =>
        simp only [reduceCtorEq, false_iff, not_forall]
        obtain ⟨hsrc, _, _⟩ := hsome c hfold
        rcases hsrc with hbad | ⟨nh, hmem, _, _, _, hw⟩
        · cases hbad
        · obtain ⟨hn, hne⟩ := (mem_candidatePairs nodes excludeNodeId nh).mp hmem
          refine ⟨nh.1, hn, hne, nh.2, ?_⟩
          unfold pairDist at hw
          rw [hw]
          simp
  · intro nid h hres
    unfold getNearestHandle at hres
    rw [haux] at hres
    cases hfold : (candidatePairs nodes excludeNodeId).foldl (considerHandle point t) none with
    | none =>
        rw [hfold] at hres
        cases hres
    | some c =>
        rw [hfold] at hres
        injection hres with hres
        have hcn : c.nodeId = nid := congrArg Prod.fst hres
        have hch : c.handle = h := congrArg Prod.snd hres
        obtain ⟨hsrc, _, hmin⟩ := hsome c hfold
        rcases hsrc with hbad | ⟨nh, hmem, hid, hhd, hdist, hw⟩
        · cases hbad
        · obtain ⟨hn, hne⟩ := (mem_candidatePairs nodes excludeNodeId nh).mp hmem
          have hh2 : nh.2 = h := by rw [← hhd, hch]
          have hpd : pairDist point nh = distSq point (getHandlePosition nh.1 h) := by
            unfold pairDist
            rw [hh2]
          refine ⟨?_, nh.1, hn, ?_, ?_, ?_⟩
          · rw [← hcn, hid]
            exact hne
          · rw [← hcn, hid]
          · rw [← hpd]
            exact hw
          · intro n' hn' hne' h' hwn
            have hle := hmin (n', h')
              ((mem_candidatePairs nodes excludeNodeId (n', h')).mpr ⟨hn', hne'⟩)
              (by unfold pairDist; exact hwn)
            unfold pairDist at hle
            calc distSq point (getHandlePosition nh.1 h) = pairDist point nh := hpd.symm
              _ = c.dist := hdist.symm
              _ ≤ distSq point (getHandlePosition n' h') := hle

/-- Witness for C6 at the concrete scene: node "a" has its top handle at
(2, 2), exactly at the query point, so it is returned as the nearest handle
within threshold 10 when the excluded id is "zz". -/
theorem C6_nearestHandle_spec_witness :
    ("a" : String) ≠ "zz"
  ∧ ∃ n ∈ [exNode6], n.id = "a"
      ∧ withinThreshold (distSq ⟨2, 2⟩ (getHandlePosition n .top)) 10 = true
      ∧ ∀ n' ∈ [exNode6], n'.id ≠ "zz" → ∀ h' : HandlePos,
          withinThreshold (distSq ⟨2, 2⟩ (getHandlePosition n' h')) 10 = true →
          distSq ⟨2, 2⟩ (getHandlePosition n .top)
            ≤ distSq ⟨2, 2⟩ (getHandlePosition n' h') :=
  (C6_nearestHandle_spec ⟨2, 2⟩ [exNode6] "zz" 10).2 "a" .top (by
    norm_num [getNearestHandle, getNearestHandleAux, scanHandles, considerHandle,
      handlesOrder, withinThreshold, distSq, getHandlePosition, exNode6]
    decide)

end Mindo
